import Mathlib

/-!
# Verification of the Boke feed-ingestion engine

A shallow embedding of the Boke repository's feed-ingestion core:
the format detector, the three dialect parsers (RSS 2.0, RSS 1.0/RDF,
Atom), the permissive date parser, feed autodiscovery, and the refresh
coordination logic, together with theorems settling the specification
claims about them.

The XML reader (quick-xml), the HTTP client, the HTML scraper, the
chrono date library and the SQL engine are external collaborators: the
embedding works at the level of the event streams, responses and
outcomes those collaborators deliver, and the repository's own logic is
translated statement by statement from the Rust sources.
-/

set_option maxRecDepth 10000

namespace Boke

/-! ## String primitives

Executable char-list models of the Rust `str` operations the sources
use (`starts_with`, `contains`, `to_lowercase`, `trim`, `trim_start`,
`replace`).  Lean's built-in `String` functions do not reduce in the
kernel, so the operations are re-implemented structurally over
`List Char`; each definition mirrors the documented behaviour of the
corresponding Rust method on the inputs the sources feed it.
-/

/-- Model of Rust `str::contains` on a `List Char` pattern. -/
def listContains (pat : List Char) : List Char → Bool
  | [] => pat.isEmpty
  | c :: rest => pat.isPrefixOf (c :: rest) || listContains pat rest

/-- Model of Rust `str::contains` (substring test). -/
def strContains (s pat : String) : Bool :=
  listContains pat.toList s.toList

/-- Model of Rust `str::starts_with`. -/
def strStartsWith (s pre : String) : Bool :=
  pre.toList.isPrefixOf s.toList

/-- Model of Rust `str::to_lowercase` (the sources only lowercase ASCII
content-type header values). -/
def strToLower (s : String) : String :=
  String.mk (s.toList.map Char.toLower)

/-- Drop leading whitespace from a char list. -/
def trimLeftChars : List Char → List Char
  | [] => []
  | c :: rest => if c.isWhitespace then trimLeftChars rest else c :: rest

/-- Model of Rust `str::trim_start`. -/
def strTrimLeft (s : String) : String :=
  String.mk (trimLeftChars s.toList)

/-- Model of Rust `str::trim` (both ends). -/
def strTrim (s : String) : String :=
  String.mk ((trimLeftChars (trimLeftChars s.toList).reverse).reverse)

/-- One pass of Rust `str::replace`, fuelled by the input length
(every step consumes at least one character, so fuel = length is
enough; the patterns used by the sources are never empty). -/
def listReplaceFuel (pat rep : List Char) : Nat → List Char → List Char
  | _, [] => []
  | 0, l => l
  | fuel + 1, c :: rest =>
    if !pat.isEmpty && pat.isPrefixOf (c :: rest) then
      rep ++ listReplaceFuel pat rep fuel (List.drop (pat.length - 1) rest)
    else
      c :: listReplaceFuel pat rep fuel rest

/-- Model of Rust `str::replace` (replace every occurrence,
left-to-right, non-overlapping). -/
def strReplace (s pat rep : String) : String :=
  String.mk (listReplaceFuel pat.toList rep.toList s.toList.length s.toList)

/-- The part of a qualified XML name after its first colon, as
quick-xml's `local_name` computes it; a name without a colon is its own
local name. -/
def afterColon : List Char → Option (List Char)
  | [] => none
  | c :: rest => if c = ':' then some rest else afterColon rest

/-- Un-prefixed local name of a qualified XML name
(quick-xml `QName::local_name`). -/
def localOf (s : String) : String :=
  match afterColon s.toList with
  | some r => String.mk r
  | none => s

/-! ## XML event stream

The sources drive quick-xml's pull reader; the embedding works on the
stream of events the reader delivers.  Text and attribute values carry
the string the Rust code observes after `unescape`/`from_utf8`
(`unwrap_or_default`/`unwrap_or("")` turn conversion failures into the
empty string, so every observation is a plain `String`).  The end of
the event list is `Event::Eof`; `errE` is a reader error (malformed
XML), after which the Rust loops return immediately.
-/

/-- One quick-xml event as the parsers observe it.  Attribute lists
carry (qualified key, unescaped value) pairs in document order. -/
inductive XmlEvent where
  /-- `Event::Start` with qualified element name and attributes. -/
  | startE (name : String) (attrs : List (String × String))
  /-- `Event::Empty` (self-closing element). -/
  | emptyE (name : String) (attrs : List (String × String))
  /-- `Event::End`. -/
  | endE (name : String)
  /-- `Event::Text` after `unescape().unwrap_or_default()`. -/
  | textE (s : String)
  /-- `Event::CData` after `from_utf8(..).unwrap_or("")`. -/
  | cdataE (s : String)
  /-- `Event::Decl` (XML declaration). -/
  | declE
  /-- `Event::Comment`. -/
  | commentE
  /-- `Event::PI` (processing instruction). -/
  | piE
  /-- Any other event (e.g. `Event::DocType`), skipped by every loop. -/
  | otherE
  /-- A reader error: malformed XML at the byte level. -/
  | errE
deriving Repr, DecidableEq

/-! ## Format detector (`feed/detector.rs`) -/

/-- `FeedFormat` from `detector.rs`. -/
inductive FeedFormat where
  | Rss2
  | Rss1
  | Atom
deriving Repr, DecidableEq

/-- `detect_format` from `detector.rs`: scan to the first start or
self-closing element and map its un-prefixed local name; declarations,
comments, processing instructions and any other event are skipped;
end-of-input or a reader error yields `none`. -/
def detect_format : List XmlEvent → Option FeedFormat
  | [] => none
  | ev :: rest =>
    match ev with
    | .startE n _ =>
      (match localOf n with
       | "rss" => some .Rss2
       | "RDF" => some .Rss1
       | "feed" => some .Atom
       | _ => none)
    | .emptyE n _ =>
      (match localOf n with
       | "rss" => some .Rss2
       | "RDF" => some .Rss1
       | "feed" => some .Atom
       | _ => none)
    | .errE => none
    | _ => detect_format rest

/-- Spec-side reading of §4.1: the local name of the first start or
self-closing element of the stream, `none` when end-of-input or a
malformed-XML error comes first. -/
def firstElementName : List XmlEvent → Option String
  | [] => none
  | .startE n _ :: _ => some (localOf n)
  | .emptyE n _ :: _ => some (localOf n)
  | .errE :: _ => none
  | _ :: rest => firstElementName rest

/-- Spec-side §4.1 name table: `rss`→RSS2, `RDF`→RSS1, `feed`→Atom,
anything else → unknown. -/
def formatOfName (n : String) : Option FeedFormat :=
  match n with
  | "rss" => some .Rss2
  | "RDF" => some .Rss1
  | "feed" => some .Atom
  | _ => none

/-! ## Canonical feed model (`feed/model.rs`)

Timestamps are abstract: `chrono::DateTime<Utc>` values are modelled as
`Int`, and the date parser is passed into the dialect parsers as a
function `String → Option Int` standing for `parse_date`.
-/

/-- `FeedEntry` from `model.rs`. -/
structure FeedEntry where
  id : String
  title : String
  link : String
  content : Option String
  summary : Option String
  author : Option String
  published : Option Int
  updated : Option Int
  categories : List String
  image_url : Option String
deriving Repr, DecidableEq

/-- `Feed` from `model.rs`. -/
structure Feed where
  title : String
  link : String
  feed_url : String
  description : Option String
  language : Option String
  last_updated : Option Int
  entries : List FeedEntry
deriving Repr, DecidableEq

/-- The all-empty `FeedEntry` each parser builds on entering an
`item`/`entry` element. -/
def emptyEntry : FeedEntry :=
  { id := "", title := "", link := "", content := none, summary := none,
    author := none, published := none, updated := none, categories := [],
    image_url := none }

/-- The initial `Feed` each parser builds before its event loop. -/
def emptyFeed (feed_url : String) : Feed :=
  { title := "", link := "", feed_url := feed_url, description := none,
    language := none, last_updated := none, entries := [] }

/-- `FeedError` from `feed/error.rs` (the variants the parsing core can
produce; HTTP and discovery failures are separate strings in the
coordinator models). -/
inductive FeedError where
  /-- `FeedError::Xml`: a quick-xml reader error. -/
  | Xml
  /-- `FeedError::UnknownFormat`. -/
  | UnknownFormat
  /-- `FeedError::MissingField(name)`. -/
  | MissingField (name : String)
deriving Repr, DecidableEq

/-- End-of-item finalisation shared verbatim by the three parsers: an
entry whose `id` is still empty gets `link` if that is non-empty, else
`"{feed_url}-{index}"` where `index` is the number of entries already
finalised. -/
def finalizeEntry (feed_url : String) (idx : Nat) (e : FeedEntry) : FeedEntry :=
  if e.id = "" then
    { e with id := if e.link ≠ "" then e.link else feed_url ++ "-" ++ toString idx }
  else e

/-- The event loop skeleton shared by the three parsers: fold the step
function over the events, return `FeedError::Xml` immediately on a
reader error, and at end-of-input fail with
`MissingField "title"` when the feed's title is still empty, else
return the feed. -/
def runFeed {σ : Type} (step : σ → XmlEvent → σ) (getFeed : σ → Feed)
    (st : σ) : List XmlEvent → Except FeedError Feed
  | [] =>
    if (getFeed st).title = "" then .error (.MissingField "title")
    else .ok (getFeed st)
  | .errE :: _ => .error .Xml
  | ev :: rest => runFeed step getFeed (step st ev) rest

/-! ## Atom parser (`feed/atom.rs`) -/

namespace Atom

/-- The mutable locals of `atom::parse`'s event loop. -/
structure State where
  feed : Feed
  in_entry : Bool
  in_author : Bool
  current_entry : Option FeedEntry
  current_tag : String
deriving Repr, DecidableEq

/-- Initial loop state of `atom::parse`. -/
def init (feed_url : String) : State :=
  { feed := emptyFeed feed_url, in_entry := false, in_author := false,
    current_entry := none, current_tag := "" }

/-- The `(href, rel)` pair `extract_link` accumulates over the link
element's attributes: `href` starts empty, `rel` defaults to
`"alternate"`, and each matching attribute overwrites in order. -/
def linkAttrs (attrs : List (String × String)) : String × String :=
  attrs.foldl
    (fun p kv =>
      match kv.1 with
      | "href" => (kv.2, p.2)
      | "rel" => (p.1, kv.2)
      | _ => p)
    ("", "alternate")

/-- `extract_link` from `atom.rs`: a link with non-empty `href` whose
`rel` is `"alternate"` or empty populates `entry.link` (inside an
entry) or `feed.link` (outside), but only when that field is still
empty. -/
def extract_link (attrs : List (String × String)) (feed : Feed)
    (current_entry : Option FeedEntry) (in_entry : Bool) :
    Feed × Option FeedEntry :=
  let hr := linkAttrs attrs
  if hr.1 ≠ "" ∧ (hr.2 = "alternate" ∨ hr.2 = "") then
    if in_entry then
      match current_entry with
      | some entry =>
        if entry.link = "" then (feed, some { entry with link := hr.1 })
        else (feed, some entry)
      | none => (feed, current_entry)
    else
      if feed.link = "" then ({ feed with link := hr.1 }, current_entry)
      else (feed, current_entry)
  else (feed, current_entry)

/-- The `category` handling of `atom.rs`: inside an entry, every `term`
attribute with a non-empty value is appended to the entry's
categories. -/
def pushCategories (attrs : List (String × String)) (in_entry : Bool)
    (current_entry : Option FeedEntry) : Option FeedEntry :=
  if in_entry then
    match current_entry with
    | some entry =>
      some { entry with categories :=
        entry.categories ++
          attrs.filterMap (fun kv =>
            if kv.1 = "term" ∧ kv.2 ≠ "" then some kv.2 else none) }
    | none => current_entry
  else current_entry

/-- `apply_text` from `atom.rs` (called only with non-empty text). -/
def apply_text (pd : String → Option Int) (text : String) (st : State) : State :=
  if st.in_entry then
    match st.current_entry with
    | some entry =>
      if st.in_author ∧ st.current_tag = "name" then
        { st with current_entry := some { entry with author := some text } }
      else
        match st.current_tag with
        | "title" => { st with current_entry := some { entry with title := text } }
        | "id" => { st with current_entry := some { entry with id := text } }
        | "content" => { st with current_entry := some { entry with content := some text } }
        | "summary" => { st with current_entry := some { entry with summary := some text } }
        | "published" => { st with current_entry := some { entry with published := pd text } }
        | "updated" => { st with current_entry := some { entry with updated := pd text } }
        | _ => st
    | none => st
  else
    match st.current_tag with
    | "title" => { st with feed := { st.feed with title := text } }
    | "subtitle" => { st with feed := { st.feed with description := some text } }
    | "updated" => { st with feed := { st.feed with last_updated := pd text } }
    | _ => st

/-- One event of `atom::parse`'s loop. -/
def step (pd : String → Option Int) (feed_url : String) (st : State)
    (ev : XmlEvent) : State :=
  match ev with
  | .startE n attrs =>
    let localN := localOf n
    let st :=
      if localN = "entry" ∧ ¬st.in_entry then
        { st with in_entry := true, current_entry := some emptyEntry }
      else if localN = "author" then
        { st with in_author := true }
      else if localN = "link" then
        let fc := extract_link attrs st.feed st.current_entry st.in_entry
        { st with feed := fc.1, current_entry := fc.2 }
      else if localN = "category" then
        { st with current_entry := pushCategories attrs st.in_entry st.current_entry }
      else st
    { st with current_tag := localN }
  | .emptyE n attrs =>
    let localN := localOf n
    if localN = "link" then
      let fc := extract_link attrs st.feed st.current_entry st.in_entry
      { st with feed := fc.1, current_entry := fc.2 }
    else if localN = "category" then
      { st with current_entry := pushCategories attrs st.in_entry st.current_entry }
    else st
  | .endE n =>
    let localN := localOf n
    let st :=
      if localN = "entry" ∧ st.in_entry then
        match st.current_entry with
        | some e =>
          { st with
              feed := { st.feed with entries :=
                st.feed.entries ++ [finalizeEntry feed_url st.feed.entries.length e] },
              current_entry := none, in_entry := false }
        | none => { st with current_entry := none, in_entry := false }
      else if localN = "author" then
        { st with in_author := false }
      else st
    { st with current_tag := "" }
  | .textE s => if s = "" then st else apply_text pd s st
  | .cdataE s => if s = "" then st else apply_text pd s st
  | _ => st

/-- `atom::parse`: run the loop, then the end-of-input title check. -/
def parse (pd : String → Option Int) (feed_url : String)
    (evs : List XmlEvent) : Except FeedError Feed :=
  runFeed (step pd feed_url) State.feed (init feed_url) evs

end Atom

/-! ## RSS 2.0 parser (`feed/rss2.rs`) -/

namespace Rss2

/-- The mutable locals of `rss2::parse`'s event loop.  `current_ns_tag`
is the fully qualified name (`content:encoded`, `dc:creator`, ...). -/
structure State where
  feed : Feed
  in_channel : Bool
  in_item : Bool
  current_entry : Option FeedEntry
  current_tag : String
  current_ns_tag : String
deriving Repr, DecidableEq

/-- Initial loop state of `rss2::parse`. -/
def init (feed_url : String) : State :=
  { feed := emptyFeed feed_url, in_channel := false, in_item := false,
    current_entry := none, current_tag := "", current_ns_tag := "" }

/-- The `enclosure` handling of `rss2.rs`: fold the attributes,
remembering the `url` value and whether some `type` value starts with
`"image/"`; an image enclosure with non-empty url sets
`entry.image_url`. -/
def applyEnclosure (attrs : List (String × String)) (entry : FeedEntry) :
    FeedEntry :=
  let acc := attrs.foldl
    (fun (p : String × Bool) kv =>
      match kv.1 with
      | "url" => (kv.2, p.2)
      | "type" => if strStartsWith kv.2 "image/" then (p.1, true) else p
      | _ => p)
    ("", false)
  if acc.2 ∧ acc.1 ≠ "" then { entry with image_url := some acc.1 } else entry

/-- `apply_text` from `rss2.rs` (called only with non-empty text). -/
def apply_text (pd : String → Option Int) (text : String) (st : State) : State :=
  if st.in_item then
    match st.current_entry with
    | some entry =>
      match st.current_tag with
      | "title" => { st with current_entry := some { entry with title := text } }
      | "link" => { st with current_entry := some { entry with link := text } }
      | "guid" => { st with current_entry := some { entry with id := text } }
      | "description" => { st with current_entry := some { entry with summary := some text } }
      | "encoded" =>
        if strContains st.current_ns_tag "content" then
          { st with current_entry := some { entry with content := some text } }
        else st
      | "creator" =>
        if strContains st.current_ns_tag "dc" then
          { st with current_entry := some { entry with author := some text } }
        else st
      | "author" => { st with current_entry := some { entry with author := some text } }
      | "pubDate" => { st with current_entry := some { entry with published := pd text } }
      | "category" =>
        { st with current_entry := some { entry with categories := entry.categories ++ [text] } }
      | _ => st
    | none => st
  else
    match st.current_tag with
    | "title" => { st with feed := { st.feed with title := text } }
    | "link" => { st with feed := { st.feed with link := text } }
    | "description" => { st with feed := { st.feed with description := some text } }
    | "language" => { st with feed := { st.feed with language := some text } }
    | "lastBuildDate" =>
      if st.feed.last_updated = none then
        { st with feed := { st.feed with last_updated := pd text } }
      else st
    | "pubDate" =>
      if st.feed.last_updated = none then
        { st with feed := { st.feed with last_updated := pd text } }
      else st
    | _ => st

/-- One event of `rss2::parse`'s loop.  Self-closing (`Empty`) events
fall through the Rust `match` untouched. -/
def step (pd : String → Option Int) (feed_url : String) (st : State)
    (ev : XmlEvent) : State :=
  match ev with
  | .startE n attrs =>
    let localN := localOf n
    let st :=
      if localN = "channel" then
        { st with in_channel := true }
      else if localN = "item" ∧ st.in_channel then
        { st with in_item := true, current_entry := some emptyEntry }
      else if localN = "enclosure" ∧ st.in_item then
        match st.current_entry with
        | some entry => { st with current_entry := some (applyEnclosure attrs entry) }
        | none => st
      else st
    { st with current_tag := localN, current_ns_tag := n }
  | .endE n =>
    let localN := localOf n
    let st :=
      if localN = "channel" then
        { st with in_channel := false }
      else if localN = "item" ∧ st.in_item then
        match st.current_entry with
        | some e =>
          { st with
              feed := { st.feed with entries :=
                st.feed.entries ++ [finalizeEntry feed_url st.feed.entries.length e] },
              current_entry := none, in_item := false }
        | none => { st with current_entry := none, in_item := false }
      else st
    { st with current_tag := "", current_ns_tag := "" }
  | .textE s => if s = "" then st else apply_text pd s st
  | .cdataE s => if s = "" then st else apply_text pd s st
  | _ => st

/-- `rss2::parse`: run the loop, then the end-of-input title check. -/
def parse (pd : String → Option Int) (feed_url : String)
    (evs : List XmlEvent) : Except FeedError Feed :=
  runFeed (step pd feed_url) State.feed (init feed_url) evs

end Rss2

/-! ## RSS 1.0 / RDF parser (`feed/rss1.rs`) -/

namespace Rss1

/-- The mutable locals of `rss1::parse`'s event loop. -/
structure State where
  feed : Feed
  in_channel : Bool
  in_item : Bool
  current_entry : Option FeedEntry
  current_tag : String
  current_ns_tag : String
deriving Repr, DecidableEq

/-- Initial loop state of `rss1::parse`. -/
def init (feed_url : String) : State :=
  { feed := emptyFeed feed_url, in_channel := false, in_item := false,
    current_entry := none, current_tag := "", current_ns_tag := "" }

/-- The `rdf:about` extraction on an `<item>` start tag: the last
attribute whose local key name is `about` (empty when none). -/
def aboutOf (attrs : List (String × String)) : String :=
  attrs.foldl (fun acc kv => if localOf kv.1 = "about" then kv.2 else acc) ""

/-- `apply_text` from `rss1.rs` (called only with non-empty text);
channel metadata applies only while inside `channel` and not inside an
`item`. -/
def apply_text (pd : String → Option Int) (text : String) (st : State) : State :=
  if st.in_item then
    match st.current_entry with
    | some entry =>
      match st.current_tag with
      | "title" => { st with current_entry := some { entry with title := text } }
      | "link" => { st with current_entry := some { entry with link := text } }
      | "description" => { st with current_entry := some { entry with summary := some text } }
      | "encoded" =>
        if strContains st.current_ns_tag "content" then
          { st with current_entry := some { entry with content := some text } }
        else st
      | "creator" =>
        if strContains st.current_ns_tag "dc" then
          { st with current_entry := some { entry with author := some text } }
        else st
      | "date" =>
        if strContains st.current_ns_tag "dc" then
          { st with current_entry := some { entry with published := pd text } }
        else st
      | "subject" =>
        if strContains st.current_ns_tag "dc" then
          { st with current_entry := some { entry with categories := entry.categories ++ [text] } }
        else st
      | _ => st
    | none => st
  else if st.in_channel then
    match st.current_tag with
    | "title" => { st with feed := { st.feed with title := text } }
    | "link" => { st with feed := { st.feed with link := text } }
    | "description" => { st with feed := { st.feed with description := some text } }
    | "language" =>
      if strContains st.current_ns_tag "dc" then
        { st with feed := { st.feed with language := some text } }
      else st
    | "date" =>
      if strContains st.current_ns_tag "dc" then
        { st with feed := { st.feed with last_updated := pd text } }
      else st
    | _ => st
  else st

/-- One event of `rss1::parse`'s loop.  An `<item>` start needs no
`in_channel` guard (items are siblings of `channel` under the root) and
clears `in_channel`; self-closing events fall through untouched. -/
def step (pd : String → Option Int) (feed_url : String) (st : State)
    (ev : XmlEvent) : State :=
  match ev with
  | .startE n attrs =>
    let localN := localOf n
    let st :=
      if localN = "channel" then
        { st with in_channel := true }
      else if localN = "item" then
        { st with
            in_item := true, in_channel := false,
            current_entry := some { emptyEntry with id := aboutOf attrs } }
      else st
    { st with current_tag := localN, current_ns_tag := n }
  | .endE n =>
    let localN := localOf n
    let st :=
      if localN = "channel" then
        { st with in_channel := false }
      else if localN = "item" ∧ st.in_item then
        match st.current_entry with
        | some e =>
          { st with
              feed := { st.feed with entries :=
                st.feed.entries ++ [finalizeEntry feed_url st.feed.entries.length e] },
              current_entry := none, in_item := false }
        | none => { st with current_entry := none, in_item := false }
      else st
    { st with current_tag := "", current_ns_tag := "" }
  | .textE s => if s = "" then st else apply_text pd s st
  | .cdataE s => if s = "" then st else apply_text pd s st
  | _ => st

/-- `rss1::parse`: run the loop, then the end-of-input title check. -/
def parse (pd : String → Option Int) (feed_url : String)
    (evs : List XmlEvent) : Except FeedError Feed :=
  runFeed (step pd feed_url) State.feed (init feed_url) evs

end Rss1

/-- `feed::parse` from `feed/mod.rs`: detect the format, fail with
`UnknownFormat` when detection yields nothing, else dispatch to the
matching dialect parser. -/
def parseFeed (pd : String → Option Int) (feed_url : String)
    (evs : List XmlEvent) : Except FeedError Feed :=
  match detect_format evs with
  | none => .error .UnknownFormat
  | some .Rss2 => Rss2.parse pd feed_url evs
  | some .Rss1 => Rss1.parse pd feed_url evs
  | some .Atom => Atom.parse pd feed_url evs

/-- Dispatch on an already-detected format: "any of the three dialect
parsers" in the claims quantifies over this. -/
def parseDialect (fmt : FeedFormat) (pd : String → Option Int)
    (feed_url : String) (evs : List XmlEvent) : Except FeedError Feed :=
  match fmt with
  | .Rss2 => Rss2.parse pd feed_url evs
  | .Rss1 => Rss1.parse pd feed_url evs
  | .Atom => Atom.parse pd feed_url evs

/-! ## Date parser (`feed/date.rs`)

The chrono library is an external collaborator: its four entry points
used by `parse_date` are a parameter (`ChronoApi`), and `parse_date` is
the repository's own chain of attempts over them, translated
line-by-line from `date.rs`.
-/

/-- The chrono primitives `parse_date` calls, as abstract parsers.
`parse_from_str` is `NaiveDateTime::parse_from_str(input, fmt)`
followed by `and_utc`; `parse_date_from_str` is
`NaiveDate::parse_from_str(input, "%Y-%m-%d")` followed by
`and_hms_opt(0,0,0)?.and_utc()` (a `none` from `and_hms_opt` also
lands in `none`). -/
structure ChronoApi where
  parse_from_rfc3339 : String → Option Int
  parse_from_rfc2822 : String → Option Int
  parse_from_str : String → String → Option Int
  parse_date_from_str : String → String → Option Int

/-- The timezone-abbreviation substitutions of `date.rs` step 3, in
source order. -/
def tzSubstitutions : List (String × String) :=
  [("GMT", "+0000"), ("EST", "-0500"), ("EDT", "-0400"),
   ("CST", "-0600"), ("CDT", "-0500"), ("MST", "-0700"),
   ("MDT", "-0600"), ("PST", "-0800"), ("PDT", "-0700"),
   ("UTC", "+0000")]

/-- The named-zone normalisation: the chain of `replace` calls of
`date.rs`. -/
def normalizeTz (s : String) : String :=
  tzSubstitutions.foldl (fun acc sub => strReplace acc sub.1 sub.2) s

/-- The fixed list of naive date/time patterns of `date.rs` step 4, in
source order. -/
def naive_formats : List String :=
  ["%Y-%m-%dT%H:%M:%S",
   "%Y-%m-%d %H:%M:%S",
   "%Y-%m-%dT%H:%M:%SZ",
   "%d %b %Y %H:%M:%S",
   "%d %B %Y %H:%M:%S",
   "%a, %d %b %Y %H:%M:%S",
   "%Y-%m-%d",
   "%d/%m/%Y %H:%M:%S",
   "%m/%d/%Y %H:%M:%S"]

/-- `parse_date` from `date.rs`: trim; empty → `none`; then try
RFC 3339, RFC 2822, RFC 2822 after named-zone substitution (only when
the substitution changed the string), the naive patterns in order, and
bare `%Y-%m-%d`; the first success returns, and a miss everywhere is
`none`, never a failure. -/
def parse_date (chrono : ChronoApi) (input : String) : Option Int :=
  let input := strTrim input
  if input = "" then none
  else
    match chrono.parse_from_rfc3339 input with
    | some dt => some dt
    | none =>
      match chrono.parse_from_rfc2822 input with
      | some dt => some dt
      | none =>
        let normalized := normalizeTz input
        match
          (if normalized ≠ input then chrono.parse_from_rfc2822 normalized
           else none) with
        | some dt => some dt
        | none =>
          match naive_formats.findSome?
              (fun fmt => chrono.parse_from_str input fmt) with
          | some dt => some dt
          | none => chrono.parse_date_from_str input "%Y-%m-%d"

/-- First success of a list of attempts, in order; later attempts are
not inspected once one succeeds. -/
def firstSome : List (Option Int) → Option Int
  | [] => none
  | o :: rest =>
    match o with
    | some v => some v
    | none => firstSome rest

/-- Spec-side reading of §4.3: a pure total function that trims, maps
the empty string to "unknown", and otherwise takes the first success of
the five attempts in order — RFC 3339, RFC 2822, RFC 2822 over the
substituted string when substitution changed it, the naive pattern
list, bare date-only. -/
def parse_date_spec (chrono : ChronoApi) (input : String) : Option Int :=
  let t := strTrim input
  if t = "" then none
  else
    firstSome
      [chrono.parse_from_rfc3339 t,
       chrono.parse_from_rfc2822 t,
       (if normalizeTz t ≠ t then chrono.parse_from_rfc2822 (normalizeTz t)
        else none),
       naive_formats.findSome? (fun fmt => chrono.parse_from_str t fmt),
       chrono.parse_date_from_str t "%Y-%m-%d"]

/-! ## Discovery (`feed/discovery.rs`)

The HTTP client, the `url` crate and the HTML scraper are
collaborators: `discover` receives the fetched response
(content-type header value and body), a flag for `Url::parse(url)`
succeeding, the `(type, href)` attribute pairs of the page's
`link[rel="alternate"]` elements in document order, a resolver standing
for `base.join(href)`, and a probe oracle giving the content-type of a
successful `HEAD` (`none` for a transport error or non-success
status). -/

namespace Discovery

/-- `DiscoveredFeed` from `discovery.rs`. -/
structure DiscoveredFeed where
  url : String
deriving Repr, DecidableEq

/-- `COMMON_FEED_PATHS` from `discovery.rs`, in probe order. -/
def COMMON_FEED_PATHS : List String :=
  ["/feed", "/rss", "/rss.xml", "/feed.xml", "/atom.xml", "/index.xml",
   "/blog/feed", "/blog/rss", "/?feed=rss2"]

/-- `is_feed_content_type` from `discovery.rs` (callers pass the
lowercased header value). -/
def is_feed_content_type (ct : String) : Bool :=
  strContains ct "xml" || strContains ct "rss" || strContains ct "atom" ||
    strContains ct "feed"

/-- `looks_like_feed` from `discovery.rs`: the body's leading
non-whitespace starts with one of the four feed markers. -/
def looks_like_feed (body : String) : Bool :=
  let trimmed := strTrimLeft body
  strStartsWith trimmed "<?xml" || strStartsWith trimmed "<rss" ||
    strStartsWith trimmed "<feed" || strStartsWith trimmed "<rdf:RDF"

/-- The fixed-path probe loop of `discover`: resolve each common path
against the base and return the first candidate whose `HEAD` succeeds
with an XML-like content-type, stopping immediately. -/
def probeLoop (resolve : String → String) (probeHead : String → Option String) :
    List String → Option DiscoveredFeed
  | [] => none
  | p :: rest =>
    let candidate := resolve p
    match probeHead candidate with
    | some ct =>
      if is_feed_content_type (strToLower ct) then some ⟨candidate⟩
      else probeLoop resolve probeHead rest
    | none => probeLoop resolve probeHead rest

/-- `discover` from `discovery.rs`, after the response for `url` has
arrived: feed-like content-type or feed-looking body → the URL itself
as sole candidate; else collect qualifying `rel="alternate"` links;
else probe the common paths; else fail naming the original URL. -/
def discover (resolve : String → String) (baseOk : Bool)
    (alternateLinks : List (String × String))
    (probeHead : String → Option String)
    (url : String) (content_type_raw : String) (body : String) :
    Except String (List DiscoveredFeed) :=
  let content_type := strToLower content_type_raw
  if is_feed_content_type content_type || looks_like_feed body then
    .ok [⟨url⟩]
  else if ¬baseOk then
    .error "Feed discovery failed: invalid base url"
  else
    let feeds := alternateLinks.filterMap (fun tl =>
      if (strContains tl.1 "rss" || strContains tl.1 "atom" ||
          strContains tl.1 "feed") && tl.2 ≠ "" then
        some (DiscoveredFeed.mk (resolve tl.2))
      else none)
    if feeds ≠ [] then .ok feeds
    else
      match probeLoop resolve probeHead COMMON_FEED_PATHS with
      | some f => .ok [f]
      | none => .error ("No feed found at " ++ url ++ ". Try providing the direct feed URL.")

end Discovery

/-! ## Storage collaborator (`db/mod.rs`, `db/sqlite.rs`) -/

namespace Db

/-- `InsertResult` from `db/mod.rs`. -/
inductive InsertResult where
  | Inserted (id : Int)
  | Ignored
deriving Repr, DecidableEq

/-- `NewArticle` from `models/article.rs` as the coordinator builds it. -/
structure NewArticle where
  feed_id : Int
  guid : String
  title : String
  link : Option String
  author : Option String
  summary : Option String
  content : Option String
  image_url : Option String
  published_at : Option Int
deriving Repr, DecidableEq

/-- The observable storage state behind the sqlite backend: the
`(feed_id, guid)` keys of the rows in the `articles` table (the
carrier of its `UNIQUE(feed_id, guid)` constraint), the rowid counter,
and the multiset of feeds whose `last_fetched_at` has been touched
(wall-clock timestamps abstracted away). -/
structure SqliteState where
  articleKeys : List (Int × String)
  nextId : Int
  lastFetched : List Int
deriving Repr, DecidableEq

/-- `insert_article` from `db/sqlite.rs`: it runs
`INSERT OR IGNORE INTO articles ...` against the `articles` table
declared by the `SCHEMA` constant in the same file with
`UNIQUE(feed_id, guid)` and created by `SqliteDatabase::init_schema`
(the desktop backend declares the identical table and constraint in
`src-tauri/src/db/mod.rs`).  The SQL engine is the collaborator; its
documented behaviour for `INSERT OR IGNORE` under that unique
constraint is what the statement means: a key not yet in the table is
inserted (`rows_affected > 0`, so the Rust returns
`Inserted(last_insert_rowid)`), a pre-existing key makes the insert a
no-op (`rows_affected = 0`, so it returns `Ignored`). -/
def insert_article (st : SqliteState) (a : NewArticle) :
    InsertResult × SqliteState :=
  if (a.feed_id, a.guid) ∈ st.articleKeys then (.Ignored, st)
  else
    (.Inserted st.nextId,
     { st with articleKeys := (a.feed_id, a.guid) :: st.articleKeys,
               nextId := st.nextId + 1 })

/-- `update_feed_last_fetched` from `db/sqlite.rs`: stamp the feed's
`last_fetched_at` (recorded as a mark, the timestamp itself
abstracted). -/
def update_feed_last_fetched (st : SqliteState) (feed_id : Int) : SqliteState :=
  { st with lastFetched := feed_id :: st.lastFetched }

end Db

/-! ## Ingestion coordinator (`services/feeds.rs`)

`FeedService::refresh_feed` and `FeedService::refresh_all_feeds` are
embedded over an abstract storage state `σ` and collaborator functions:
`get_feed_url`, the combined fetch-and-parse (one HTTP GET plus
`FeedParser::parse`), `insert_article` and `update_feed_last_fetched`.
Each collaborator returns `Except String` (the Rust `?` on a
`DbResult`/`reqwest` error) next to the state it leaves behind; `anyhow`
error values are carried as strings. -/

namespace FeedService

/-- `RefreshResult` from `services/feeds.rs` (no error field). -/
structure RefreshResult where
  feed_id : Int
  new_articles : Nat
deriving Repr, DecidableEq

/-- The article record `refresh_feed` (and `add_feed`) builds from a
parsed entry: `guid` is the entry's id, an empty `link` becomes
`None`. -/
def toNewArticle (feed_id : Int) (e : FeedEntry) : Db.NewArticle :=
  { feed_id := feed_id, guid := e.id, title := e.title,
    link := if e.link = "" then none else some e.link,
    author := e.author, summary := e.summary, content := e.content,
    image_url := e.image_url, published_at := e.published }

/-- The entry loop of `refresh_feed`: insert each article, propagate
the first storage error (`?`), and count the `Inserted` outcomes. -/
def insertLoop {σ : Type}
    (ins : σ → Db.NewArticle → Except String Db.InsertResult × σ) :
    σ → Nat → List Db.NewArticle → Except String Nat × σ
  | st, count, [] => (.ok count, st)
  | st, count, a :: rest =>
    match ins st a with
    | (.error e, st') => (.error e, st')
    | (.ok r, st') =>
      insertLoop ins st'
        (match r with
         | .Inserted _ => count + 1
         | .Ignored => count) rest

/-- `FeedService::refresh_feed`: look up the feed's URL (unknown id
fails), fetch and parse, insert-or-ignore every entry counting
`Inserted` outcomes, then update the feed's `last_fetched_at`.  Every
`?` propagates the error with the storage state as the failed call left
it. -/
def refresh_feed {σ : Type}
    (get_feed_url : σ → Int → Except String (Option String))
    (fetchParse : String → Except String Feed)
    (insert_article : σ → Db.NewArticle → Except String Db.InsertResult × σ)
    (update_last_fetched : σ → Int → Except String Unit × σ)
    (st : σ) (feed_id : Int) : Except String RefreshResult × σ :=
  match get_feed_url st feed_id with
  | .error e => (.error e, st)
  | .ok none => (.error "Feed not found", st)
  | .ok (some feed_url) =>
    match fetchParse feed_url with
    | .error e => (.error e, st)
    | .ok parsed =>
      match insertLoop insert_article st 0
          (parsed.entries.map (toNewArticle feed_id)) with
      | (.error e, st') => (.error e, st')
      | (.ok count, st') =>
        match update_last_fetched st' feed_id with
        | (.error e, st'') => (.error e, st'')
        | (.ok _, st'') =>
          (.ok { feed_id := feed_id, new_articles := count }, st'')

/-- `FeedService::refresh_all_feeds`: refresh every known feed in turn;
a per-feed error is logged and replaced by a result with zero new
articles (the error itself does not appear in the returned list), and
iteration continues. -/
def refresh_all_feeds {σ : Type}
    (doRefresh : σ → Int → Except String RefreshResult × σ) :
    σ → List Int → List RefreshResult × σ
  | st, [] => ([], st)
  | st, fid :: rest =>
    let r := doRefresh st fid
    let res :=
      match r.1 with
      | .ok result => result
      | .error _ => { feed_id := fid, new_articles := 0 }
    let tail := refresh_all_feeds doRefresh r.2 rest
    (res :: tail.1, tail.2)

end FeedService

/-! ## Desktop command surface (`commands/feeds.rs`)

`refresh_all_feeds` in the Tauri command layer fans out one
`do_refresh` per feed and collects one `RefreshResult` per task; the
concurrency is embedded as a per-feed outcome function (each task's
net effect), with result order abstracted to input order. -/

namespace Commands

/-- `RefreshResult` from `commands/feeds.rs` — unlike the core service
result it carries the error. -/
structure RefreshResult where
  feed_id : Int
  new_articles : Int
  error : Option String
deriving Repr, DecidableEq

/-- `refresh_all_feeds` from `commands/feeds.rs`: each feed's
`do_refresh` outcome becomes a result — the new-article count on
success, zero new articles plus the error string on failure. -/
def refresh_all_feeds (doRefresh : Int → String → Except String Int) :
    List (Int × String) → List RefreshResult
  | [] => []
  | f :: rest =>
    (match doRefresh f.1 f.2 with
     | .ok count => { feed_id := f.1, new_articles := count, error := none }
     | .error e => { feed_id := f.1, new_articles := 0, error := some e }) ::
      refresh_all_feeds doRefresh rest

end Commands

/-! ## Lemmas about the shared parser loop -/

theorem runFeed_cons_ne {σ : Type} (step : σ → XmlEvent → σ) (getFeed : σ → Feed)
    (st : σ) (ev : XmlEvent) (rest : List XmlEvent) (h : ev ≠ XmlEvent.errE) :
    runFeed step getFeed st (ev :: rest) = runFeed step getFeed (step st ev) rest := by
  cases ev <;> first | rfl | exact absurd rfl h

theorem runFeed_err {σ : Type} (step : σ → XmlEvent → σ) (getFeed : σ → Feed) :
    ∀ (evs : List XmlEvent) (st : σ), XmlEvent.errE ∈ evs →
      runFeed step getFeed st evs = .error .Xml := by
  intro evs
  induction evs with
  | nil => intro st h; cases h
  | cons ev rest ih =>
    intro st h
    by_cases hev : ev = XmlEvent.errE
    · subst hev; rfl
    · rw [runFeed_cons_ne step getFeed st ev rest hev]
      exact ih (step st ev) (by
        rcases List.mem_cons.mp h with h1 | h2
        · exact absurd h1.symm hev
        · exact h2)

theorem runFeed_no_err {σ : Type} (step : σ → XmlEvent → σ) (getFeed : σ → Feed) :
    ∀ (evs : List XmlEvent) (st : σ), XmlEvent.errE ∉ evs →
      runFeed step getFeed st evs =
        (if (getFeed (evs.foldl step st)).title = "" then
           .error (.MissingField "title")
         else .ok (getFeed (evs.foldl step st))) := by
  intro evs
  induction evs with
  | nil => intro st _; rfl
  | cons ev rest ih =>
    intro st h
    have hev : ev ≠ XmlEvent.errE := fun he => h (he ▸ List.mem_cons_self ev rest)
    rw [runFeed_cons_ne step getFeed st ev rest hev, List.foldl_cons]
    exact ih (step st ev) (fun hm => h (List.mem_cons_of_mem ev hm))

theorem runFeed_ok_inv {σ : Type} (P : σ → Prop) (step : σ → XmlEvent → σ)
    (getFeed : σ → Feed) (hstep : ∀ st ev, P st → P (step st ev)) :
    ∀ (evs : List XmlEvent) (st : σ) (f : Feed), P st →
      runFeed step getFeed st evs = .ok f → ∃ st', P st' ∧ f = getFeed st' := by
  intro evs
  induction evs with
  | nil =>
    intro st f hP hrun
    unfold runFeed at hrun
    split at hrun
    · cases hrun
    · cases hrun; exact ⟨st, hP, rfl⟩
  | cons ev rest ih =>
    intro st f hP hrun
    by_cases hev : ev = XmlEvent.errE
    · subst hev; cases hrun
    · rw [runFeed_cons_ne step getFeed st ev rest hev] at hrun
      exact ih (step st ev) f (hstep st ev hP) hrun

/-! ## The entry-id invariant (claim C2) -/

/-- Every finalised entry carries a non-empty id. -/
def GoodIds (es : List FeedEntry) : Prop := ∀ e ∈ es, e.id ≠ ""

theorem finalizeEntry_id_ne (feed_url : String) (idx : Nat) (e : FeedEntry) :
    (finalizeEntry feed_url idx e).id ≠ "" := by
  unfold finalizeEntry
  split
  · next hid =>
    simp only
    split
    · next hlink => exact hlink
    · intro h
      have h2 := congrArg String.length h
      rw [String.length_append, String.length_append] at h2
      have h3 : ("-" : String).length = 1 := rfl
      rw [h3] at h2
      simp at h2
  · next hid => exact hid

theorem Atom.extract_link_fst_entries (attrs : List (String × String))
    (f : Feed) (ce : Option FeedEntry) (b : Bool) :
    ((Atom.extract_link attrs f ce b).1).entries = f.entries := by
  simp only [Atom.extract_link]
  split
  · split
    · split
      · split <;> rfl
      · rfl
    · split <;> rfl
  · rfl

theorem atom_applyText_feed_entries (pd : String → Option Int) (t : String)
    (st : Atom.State) :
    ((Atom.apply_text pd t st).feed).entries = st.feed.entries := by
  unfold Atom.apply_text
  split
  · split
    · split
      · rfl
      · split <;> rfl
    · rfl
  · split <;> rfl

theorem atom_step_goodIds (pd : String → Option Int) (url : String)
    (st : Atom.State) (ev : XmlEvent) (h : GoodIds st.feed.entries) :
    GoodIds ((Atom.step pd url st ev).feed).entries := by
  cases ev with
  | startE n attrs =>
    simp only [Atom.step]
    split
    · exact h
    · split
      · exact h
      · split
        · simpa [Atom.extract_link_fst_entries] using h
        · split
          · exact h
          · exact h
  | emptyE n attrs =>
    simp only [Atom.step]
    split
    · simpa [Atom.extract_link_fst_entries] using h
    · split
      · exact h
      · exact h
  | endE n =>
    simp only [Atom.step]
    split
    · split
      · next e _ =>
        intro x hx
        rcases List.mem_append.mp hx with hx1 | hx2
        · exact h x hx1
        · rcases List.mem_singleton.mp hx2 with rfl
          exact finalizeEntry_id_ne url st.feed.entries.length e
      · exact h
    · split
      · exact h
      · exact h
  | textE s =>
    simp only [Atom.step]
    split
    · exact h
    · simpa [atom_applyText_feed_entries] using h
  | cdataE s =>
    simp only [Atom.step]
    split
    · exact h
    · simpa [atom_applyText_feed_entries] using h
  | declE => exact h
  | commentE => exact h
  | piE => exact h
  | otherE => exact h
  | errE => exact h

theorem rss2_applyText_feed_entries (pd : String → Option Int) (t : String)
    (st : Rss2.State) :
    ((Rss2.apply_text pd t st).feed).entries = st.feed.entries := by
  unfold Rss2.apply_text
  repeat' split
  all_goals rfl

theorem rss2_step_goodIds (pd : String → Option Int) (url : String)
    (st : Rss2.State) (ev : XmlEvent) (h : GoodIds st.feed.entries) :
    GoodIds ((Rss2.step pd url st ev).feed).entries := by
  cases ev with
  | startE n attrs =>
    simp only [Rss2.step]
    split
    · exact h
    · split
      · exact h
      · split
        · split
          · exact h
          · exact h
        · exact h
  | endE n =>
    simp only [Rss2.step]
    split
    · exact h
    · split
      · split
        · next e _ =>
          intro x hx
          rcases List.mem_append.mp hx with hx1 | hx2
          · exact h x hx1
          · rcases List.mem_singleton.mp hx2 with rfl
            exact finalizeEntry_id_ne url st.feed.entries.length e
        · exact h
      · exact h
  | textE s =>
    simp only [Rss2.step]
    split
    · exact h
    · simpa [rss2_applyText_feed_entries] using h
  | cdataE s =>
    simp only [Rss2.step]
    split
    · exact h
    · simpa [rss2_applyText_feed_entries] using h
  | emptyE n attrs => exact h
  | declE => exact h
  | commentE => exact h
  | piE => exact h
  | otherE => exact h
  | errE => exact h

theorem rss1_applyText_feed_entries (pd : String → Option Int) (t : String)
    (st : Rss1.State) :
    ((Rss1.apply_text pd t st).feed).entries = st.feed.entries := by
  unfold Rss1.apply_text
  repeat' split
  all_goals rfl

theorem rss1_step_goodIds (pd : String → Option Int) (url : String)
    (st : Rss1.State) (ev : XmlEvent) (h : GoodIds st.feed.entries) :
    GoodIds ((Rss1.step pd url st ev).feed).entries := by
  cases ev with
  | startE n attrs =>
    simp only [Rss1.step]
    split
    · exact h
    · split
      · exact h
      · exact h
  | endE n =>
    simp only [Rss1.step]
    split
    · exact h
    · split
      · split
        · next e _ =>
          intro x hx
          rcases List.mem_append.mp hx with hx1 | hx2
          · exact h x hx1
          · rcases List.mem_singleton.mp hx2 with rfl
            exact finalizeEntry_id_ne url st.feed.entries.length e
        · exact h
      · exact h
  | textE s =>
    simp only [Rss1.step]
    split
    · exact h
    · simpa [rss1_applyText_feed_entries] using h
  | cdataE s =>
    simp only [Rss1.step]
    split
    · exact h
    · simpa [rss1_applyText_feed_entries] using h
  | emptyE n attrs => exact h
  | declE => exact h
  | commentE => exact h
  | piE => exact h
  | otherE => exact h
  | errE => exact h

theorem parse_goodIds (fmt : FeedFormat) (pd : String → Option Int)
    (url : String) (evs : List XmlEvent) (feed : Feed)
    (h : parseDialect fmt pd url evs = .ok feed) : GoodIds feed.entries := by
  cases fmt with
  | Rss2 =>
    rcases runFeed_ok_inv (fun st => GoodIds st.feed.entries) (Rss2.step pd url)
        Rss2.State.feed (fun st ev hP => rss2_step_goodIds pd url st ev hP)
        evs (Rss2.init url) feed (fun e he => absurd he (List.not_mem_nil e)) h with
      ⟨st', hP, rfl⟩
    exact hP
  | Rss1 =>
    rcases runFeed_ok_inv (fun st => GoodIds st.feed.entries) (Rss1.step pd url)
        Rss1.State.feed (fun st ev hP => rss1_step_goodIds pd url st ev hP)
        evs (Rss1.init url) feed (fun e he => absurd he (List.not_mem_nil e)) h with
      ⟨st', hP, rfl⟩
    exact hP
  | Atom =>
    rcases runFeed_ok_inv (fun st => GoodIds st.feed.entries) (Atom.step pd url)
        Atom.State.feed (fun st ev hP => atom_step_goodIds pd url st ev hP)
        evs (Atom.init url) feed (fun e he => absurd he (List.not_mem_nil e)) h with
      ⟨st', hP, rfl⟩
    exact hP

/-! ## The no-empty-optional invariant (claim C10) -/

/-- No optional string field of an entry is present-but-empty, and no
category is the empty string. -/
def CleanEntry (e : FeedEntry) : Prop :=
  e.content ≠ some "" ∧ e.summary ≠ some "" ∧ e.author ≠ some "" ∧
    e.image_url ≠ some "" ∧ "" ∉ e.categories

/-- No optional string field of the feed is present-but-empty, and all
its entries are clean. -/
def CleanFeed (f : Feed) : Prop :=
  f.description ≠ some "" ∧ f.language ≠ some "" ∧ ∀ e ∈ f.entries, CleanEntry e

theorem some_ne_some_empty {t : String} (ht : t ≠ "") :
    (some t : Option String) ≠ some "" :=
  fun h => ht (Option.some.inj h)

theorem cleanEntry_emptyEntry : CleanEntry emptyEntry := by
  simp [CleanEntry, emptyEntry]

theorem cleanEntry_title {e : FeedEntry} (h : CleanEntry e) (t : String) :
    CleanEntry { e with title := t } :=
  ⟨h.1, h.2.1, h.2.2.1, h.2.2.2.1, h.2.2.2.2⟩

theorem cleanEntry_id {e : FeedEntry} (h : CleanEntry e) (t : String) :
    CleanEntry { e with id := t } :=
  ⟨h.1, h.2.1, h.2.2.1, h.2.2.2.1, h.2.2.2.2⟩

theorem cleanEntry_link {e : FeedEntry} (h : CleanEntry e) (t : String) :
    CleanEntry { e with link := t } :=
  ⟨h.1, h.2.1, h.2.2.1, h.2.2.2.1, h.2.2.2.2⟩

theorem cleanEntry_published {e : FeedEntry} (h : CleanEntry e) (d : Option Int) :
    CleanEntry { e with published := d } :=
  ⟨h.1, h.2.1, h.2.2.1, h.2.2.2.1, h.2.2.2.2⟩

theorem cleanEntry_updated {e : FeedEntry} (h : CleanEntry e) (d : Option Int) :
    CleanEntry { e with updated := d } :=
  ⟨h.1, h.2.1, h.2.2.1, h.2.2.2.1, h.2.2.2.2⟩

theorem cleanEntry_content {e : FeedEntry} (h : CleanEntry e) {t : String}
    (ht : t ≠ "") : CleanEntry { e with content := some t } :=
  ⟨some_ne_some_empty ht, h.2.1, h.2.2.1, h.2.2.2.1, h.2.2.2.2⟩

theorem cleanEntry_summary {e : FeedEntry} (h : CleanEntry e) {t : String}
    (ht : t ≠ "") : CleanEntry { e with summary := some t } :=
  ⟨h.1, some_ne_some_empty ht, h.2.2.1, h.2.2.2.1, h.2.2.2.2⟩

theorem cleanEntry_author {e : FeedEntry} (h : CleanEntry e) {t : String}
    (ht : t ≠ "") : CleanEntry { e with author := some t } :=
  ⟨h.1, h.2.1, some_ne_some_empty ht, h.2.2.2.1, h.2.2.2.2⟩

theorem cleanEntry_image_url {e : FeedEntry} (h : CleanEntry e) {t : String}
    (ht : t ≠ "") : CleanEntry { e with image_url := some t } :=
  ⟨h.1, h.2.1, h.2.2.1, some_ne_some_empty ht, h.2.2.2.2⟩

theorem cleanEntry_push_category {e : FeedEntry} (h : CleanEntry e) {t : String}
    (ht : t ≠ "") : CleanEntry { e with categories := e.categories ++ [t] } := by
  refine ⟨h.1, h.2.1, h.2.2.1, h.2.2.2.1, ?_⟩
  intro hmem
  rcases List.mem_append.mp hmem with hm | hm
  · exact h.2.2.2.2 hm
  · exact ht (List.mem_singleton.mp hm).symm

theorem cleanEntry_append_categories {e : FeedEntry} (h : CleanEntry e)
    {l : List String} (hl : ∀ x ∈ l, x ≠ "") :
    CleanEntry { e with categories := e.categories ++ l } := by
  refine ⟨h.1, h.2.1, h.2.2.1, h.2.2.2.1, ?_⟩
  intro hmem
  rcases List.mem_append.mp hmem with hm | hm
  · exact h.2.2.2.2 hm
  · exact hl "" hm rfl

theorem cleanEntry_finalize {e : FeedEntry} (h : CleanEntry e)
    (url : String) (idx : Nat) : CleanEntry (finalizeEntry url idx e) := by
  unfold finalizeEntry
  split
  · exact cleanEntry_id h _
  · exact h

theorem cleanFeed_title {f : Feed} (h : CleanFeed f) (t : String) :
    CleanFeed { f with title := t } :=
  ⟨h.1, h.2.1, h.2.2⟩

theorem cleanFeed_link {f : Feed} (h : CleanFeed f) (t : String) :
    CleanFeed { f with link := t } :=
  ⟨h.1, h.2.1, h.2.2⟩

theorem cleanFeed_last_updated {f : Feed} (h : CleanFeed f) (d : Option Int) :
    CleanFeed { f with last_updated := d } :=
  ⟨h.1, h.2.1, h.2.2⟩

theorem cleanFeed_description {f : Feed} (h : CleanFeed f) {t : String}
    (ht : t ≠ "") : CleanFeed { f with description := some t } :=
  ⟨some_ne_some_empty ht, h.2.1, h.2.2⟩

theorem cleanFeed_language {f : Feed} (h : CleanFeed f) {t : String}
    (ht : t ≠ "") : CleanFeed { f with language := some t } :=
  ⟨h.1, some_ne_some_empty ht, h.2.2⟩

theorem cleanFeed_push_entry {f : Feed} (h : CleanFeed f) {e : FeedEntry}
    (he : CleanEntry e) : CleanFeed { f with entries := f.entries ++ [e] } := by
  refine ⟨h.1, h.2.1, ?_⟩
  intro x hx
  rcases List.mem_append.mp hx with hm | hm
  · exact h.2.2 x hm
  · exact (List.mem_singleton.mp hm) ▸ he

theorem cleanFeed_emptyFeed (url : String) : CleanFeed (emptyFeed url) := by
  simp [CleanFeed, emptyFeed]

theorem Atom.extract_link_clean (attrs : List (String × String)) (f : Feed)
    (ce : Option FeedEntry) (b : Bool) (hf : CleanFeed f)
    (hce : ∀ e, ce = some e → CleanEntry e) :
    CleanFeed (Atom.extract_link attrs f ce b).1 ∧
      ∀ e, (Atom.extract_link attrs f ce b).2 = some e → CleanEntry e := by
  simp only [Atom.extract_link]
  split
  · split
    · split
      · rename_i entry
        split
        · exact ⟨hf, fun e he => by cases he; exact cleanEntry_link (hce entry rfl) _⟩
        · exact ⟨hf, fun e he => by cases he; exact hce entry rfl⟩
      · exact ⟨hf, hce⟩
    · split
      · exact ⟨cleanFeed_link hf _, hce⟩
      · exact ⟨hf, hce⟩
  · exact ⟨hf, hce⟩

theorem Atom.pushCategories_clean (attrs : List (String × String)) (b : Bool)
    (ce : Option FeedEntry) (hce : ∀ e, ce = some e → CleanEntry e) :
    ∀ e, Atom.pushCategories attrs b ce = some e → CleanEntry e := by
  unfold Atom.pushCategories
  split
  · split
    · rename_i entry
      intro e he
      cases he
      refine cleanEntry_append_categories (hce entry rfl) ?_
      intro x hx
      rcases List.mem_filterMap.mp hx with ⟨kv, _, hif⟩
      split at hif
      · rename_i hc
        exact (Option.some.inj hif) ▸ hc.2
      · cases hif
    · exact hce
  · exact hce

theorem atom_applyText_clean (pd : String → Option Int) (t : String)
    (st : Atom.State) (ht : t ≠ "") (h1 : CleanFeed st.feed)
    (h2 : ∀ e, st.current_entry = some e → CleanEntry e) :
    CleanFeed (Atom.apply_text pd t st).feed ∧
      ∀ e, (Atom.apply_text pd t st).current_entry = some e → CleanEntry e := by
  unfold Atom.apply_text
  split
  · split
    · rename_i entry heq
      have hE := h2 entry heq
      split
      · exact ⟨h1, fun e he => by cases he; exact cleanEntry_author hE ht⟩
      · split
        · exact ⟨h1, fun e he => by cases he; exact cleanEntry_title hE _⟩
        · exact ⟨h1, fun e he => by cases he; exact cleanEntry_id hE _⟩
        · exact ⟨h1, fun e he => by cases he; exact cleanEntry_content hE ht⟩
        · exact ⟨h1, fun e he => by cases he; exact cleanEntry_summary hE ht⟩
        · exact ⟨h1, fun e he => by cases he; exact cleanEntry_published hE _⟩
        · exact ⟨h1, fun e he => by cases he; exact cleanEntry_updated hE _⟩
        · exact ⟨h1, h2⟩
    · exact ⟨h1, h2⟩
  · split
    · exact ⟨cleanFeed_title h1 _, h2⟩
    · exact ⟨cleanFeed_description h1 ht, h2⟩
    · exact ⟨cleanFeed_last_updated h1 _, h2⟩
    · exact ⟨h1, h2⟩

theorem atom_step_clean (pd : String → Option Int) (url : String)
    (st : Atom.State) (ev : XmlEvent) (h1 : CleanFeed st.feed)
    (h2 : ∀ e, st.current_entry = some e → CleanEntry e) :
    CleanFeed (Atom.step pd url st ev).feed ∧
      ∀ e, (Atom.step pd url st ev).current_entry = some e → CleanEntry e := by
  cases ev with
  | startE n attrs =>
    simp only [Atom.step]
    split
    · exact ⟨h1, fun e he => by cases he; exact cleanEntry_emptyEntry⟩
    · split
      · exact ⟨h1, h2⟩
      · split
        · exact Atom.extract_link_clean attrs st.feed st.current_entry st.in_entry h1 h2
        · split
          · exact ⟨h1, Atom.pushCategories_clean attrs st.in_entry st.current_entry h2⟩
          · exact ⟨h1, h2⟩
  | emptyE n attrs =>
    simp only [Atom.step]
    split
    · exact Atom.extract_link_clean attrs st.feed st.current_entry st.in_entry h1 h2
    · split
      · exact ⟨h1, Atom.pushCategories_clean attrs st.in_entry st.current_entry h2⟩
      · exact ⟨h1, h2⟩
  | endE n =>
    simp only [Atom.step]
    split
    · split
      · rename_i e' heq
        exact ⟨cleanFeed_push_entry h1
            (cleanEntry_finalize (h2 e' heq) url st.feed.entries.length),
          fun e he => by cases he⟩
      · exact ⟨h1, fun e he => by cases he⟩
    · split
      · exact ⟨h1, h2⟩
      · exact ⟨h1, h2⟩
  | textE s =>
    simp only [Atom.step]
    split
    · exact ⟨h1, h2⟩
    · rename_i hs
      exact atom_applyText_clean pd s st hs h1 h2
  | cdataE s =>
    simp only [Atom.step]
    split
    · exact ⟨h1, h2⟩
    · rename_i hs
      exact atom_applyText_clean pd s st hs h1 h2
  | declE => exact ⟨h1, h2⟩
  | commentE => exact ⟨h1, h2⟩
  | piE => exact ⟨h1, h2⟩
  | otherE => exact ⟨h1, h2⟩
  | errE => exact ⟨h1, h2⟩

theorem Rss2.applyEnclosure_clean (attrs : List (String × String))
    {entry : FeedEntry} (h : CleanEntry entry) :
    CleanEntry (Rss2.applyEnclosure attrs entry) := by
  simp only [Rss2.applyEnclosure]
  split
  · rename_i hc
    exact cleanEntry_image_url h hc.2
  · exact h

theorem rss2_applyText_clean (pd : String → Option Int) (t : String)
    (st : Rss2.State) (ht : t ≠ "") (h1 : CleanFeed st.feed)
    (h2 : ∀ e, st.current_entry = some e → CleanEntry e) :
    CleanFeed (Rss2.apply_text pd t st).feed ∧
      ∀ e, (Rss2.apply_text pd t st).current_entry = some e → CleanEntry e := by
  unfold Rss2.apply_text
  split
  · split
    · rename_i entry heq
      have hE := h2 entry heq
      split
      · exact ⟨h1, fun e he => by cases he; exact cleanEntry_title hE _⟩
      · exact ⟨h1, fun e he => by cases he; exact cleanEntry_link hE _⟩
      · exact ⟨h1, fun e he => by cases he; exact cleanEntry_id hE _⟩
      · exact ⟨h1, fun e he => by cases he; exact cleanEntry_summary hE ht⟩
      · split
        · exact ⟨h1, fun e he => by cases he; exact cleanEntry_content hE ht⟩
        · exact ⟨h1, h2⟩
      · split
        · exact ⟨h1, fun e he => by cases he; exact cleanEntry_author hE ht⟩
        · exact ⟨h1, h2⟩
      · exact ⟨h1, fun e he => by cases he; exact cleanEntry_author hE ht⟩
      · exact ⟨h1, fun e he => by cases he; exact cleanEntry_published hE _⟩
      · exact ⟨h1, fun e he => by cases he; exact cleanEntry_push_category hE ht⟩
      · exact ⟨h1, h2⟩
    · exact ⟨h1, h2⟩
  · split
    · exact ⟨cleanFeed_title h1 _, h2⟩
    · exact ⟨cleanFeed_link h1 _, h2⟩
    · exact ⟨cleanFeed_description h1 ht, h2⟩
    · exact ⟨cleanFeed_language h1 ht, h2⟩
    · split
      · exact ⟨cleanFeed_last_updated h1 _, h2⟩
      · exact ⟨h1, h2⟩
    · split
      · exact ⟨cleanFeed_last_updated h1 _, h2⟩
      · exact ⟨h1, h2⟩
    · exact ⟨h1, h2⟩

theorem rss2_step_clean (pd : String → Option Int) (url : String)
    (st : Rss2.State) (ev : XmlEvent) (h1 : CleanFeed st.feed)
    (h2 : ∀ e, st.current_entry = some e → CleanEntry e) :
    CleanFeed (Rss2.step pd url st ev).feed ∧
      ∀ e, (Rss2.step pd url st ev).current_entry = some e → CleanEntry e := by
  cases ev with
  | startE n attrs =>
    simp only [Rss2.step]
    split
    · exact ⟨h1, h2⟩
    · split
      · exact ⟨h1, fun e he => by cases he; exact cleanEntry_emptyEntry⟩
      · split
        · split
          · rename_i entry heq
            exact ⟨h1, fun e he => by
              cases he; exact Rss2.applyEnclosure_clean attrs (h2 entry heq)⟩
          · exact ⟨h1, h2⟩
        · exact ⟨h1, h2⟩
  | endE n =>
    simp only [Rss2.step]
    split
    · exact ⟨h1, h2⟩
    · split
      · split
        · rename_i e' heq
          exact ⟨cleanFeed_push_entry h1
              (cleanEntry_finalize (h2 e' heq) url st.feed.entries.length),
            fun e he => by cases he⟩
        · exact ⟨h1, fun e he => by cases he⟩
      · exact ⟨h1, h2⟩
  | textE s =>
    simp only [Rss2.step]
    split
    · exact ⟨h1, h2⟩
    · rename_i hs
      exact rss2_applyText_clean pd s st hs h1 h2
  | cdataE s =>
    simp only [Rss2.step]
    split
    · exact ⟨h1, h2⟩
    · rename_i hs
      exact rss2_applyText_clean pd s st hs h1 h2
  | emptyE n attrs => exact ⟨h1, h2⟩
  | declE => exact ⟨h1, h2⟩
  | commentE => exact ⟨h1, h2⟩
  | piE => exact ⟨h1, h2⟩
  | otherE => exact ⟨h1, h2⟩
  | errE => exact ⟨h1, h2⟩

theorem rss1_applyText_clean (pd : String → Option Int) (t : String)
    (st : Rss1.State) (ht : t ≠ "") (h1 : CleanFeed st.feed)
    (h2 : ∀ e, st.current_entry = some e → CleanEntry e) :
    CleanFeed (Rss1.apply_text pd t st).feed ∧
      ∀ e, (Rss1.apply_text pd t st).current_entry = some e → CleanEntry e := by
  unfold Rss1.apply_text
  split
  · split
    · rename_i entry heq
      have hE := h2 entry heq
      split
      · exact ⟨h1, fun e he => by cases he; exact cleanEntry_title hE _⟩
      · exact ⟨h1, fun e he => by cases he; exact cleanEntry_link hE _⟩
      · exact ⟨h1, fun e he => by cases he; exact cleanEntry_summary hE ht⟩
      · split
        · exact ⟨h1, fun e he => by cases he; exact cleanEntry_content hE ht⟩
        · exact ⟨h1, h2⟩
      · split
        · exact ⟨h1, fun e he => by cases he; exact cleanEntry_author hE ht⟩
        · exact ⟨h1, h2⟩
      · split
        · exact ⟨h1, fun e he => by cases he; exact cleanEntry_published hE _⟩
        · exact ⟨h1, h2⟩
      · split
        · exact ⟨h1, fun e he => by cases he; exact cleanEntry_push_category hE ht⟩
        · exact ⟨h1, h2⟩
      · exact ⟨h1, h2⟩
    · exact ⟨h1, h2⟩
  · split
    · split
      · exact ⟨cleanFeed_title h1 _, h2⟩
      · exact ⟨cleanFeed_link h1 _, h2⟩
      · exact ⟨cleanFeed_description h1 ht, h2⟩
      · split
        · exact ⟨cleanFeed_language h1 ht, h2⟩
        · exact ⟨h1, h2⟩
      · split
        · exact ⟨cleanFeed_last_updated h1 _, h2⟩
        · exact ⟨h1, h2⟩
      · exact ⟨h1, h2⟩
    · exact ⟨h1, h2⟩

theorem rss1_step_clean (pd : String → Option Int) (url : String)
    (st : Rss1.State) (ev : XmlEvent) (h1 : CleanFeed st.feed)
    (h2 : ∀ e, st.current_entry = some e → CleanEntry e) :
    CleanFeed (Rss1.step pd url st ev).feed ∧
      ∀ e, (Rss1.step pd url st ev).current_entry = some e → CleanEntry e := by
  cases ev with
  | startE n attrs =>
    simp only [Rss1.step]
    split
    · exact ⟨h1, h2⟩
    · split
      · exact ⟨h1, fun e he => by
          cases he; exact cleanEntry_id cleanEntry_emptyEntry _⟩
      · exact ⟨h1, h2⟩
  | endE n =>
    simp only [Rss1.step]
    split
    · exact ⟨h1, h2⟩
    · split
      · split
        · rename_i e' heq
          exact ⟨cleanFeed_push_entry h1
              (cleanEntry_finalize (h2 e' heq) url st.feed.entries.length),
            fun e he => by cases he⟩
        · exact ⟨h1, fun e he => by cases he⟩
      · exact ⟨h1, h2⟩
  | textE s =>
    simp only [Rss1.step]
    split
    · exact ⟨h1, h2⟩
    · rename_i hs
      exact rss1_applyText_clean pd s st hs h1 h2
  | cdataE s =>
    simp only [Rss1.step]
    split
    · exact ⟨h1, h2⟩
    · rename_i hs
      exact rss1_applyText_clean pd s st hs h1 h2
  | emptyE n attrs => exact ⟨h1, h2⟩
  | declE => exact ⟨h1, h2⟩
  | commentE => exact ⟨h1, h2⟩
  | piE => exact ⟨h1, h2⟩
  | otherE => exact ⟨h1, h2⟩
  | errE => exact ⟨h1, h2⟩

theorem parse_clean (fmt : FeedFormat) (pd : String → Option Int)
    (url : String) (evs : List XmlEvent) (feed : Feed)
    (h : parseDialect fmt pd url evs = .ok feed) : CleanFeed feed := by
  cases fmt with
  | Rss2 =>
    rcases runFeed_ok_inv
        (fun st : Rss2.State =>
          CleanFeed st.feed ∧ ∀ e, st.current_entry = some e → CleanEntry e)
        (Rss2.step pd url) Rss2.State.feed
        (fun st ev hP => rss2_step_clean pd url st ev hP.1 hP.2)
        evs (Rss2.init url) feed
        ⟨cleanFeed_emptyFeed url, fun e he => by cases he⟩ h with ⟨st', hP, rfl⟩
    exact hP.1
  | Rss1 =>
    rcases runFeed_ok_inv
        (fun st : Rss1.State =>
          CleanFeed st.feed ∧ ∀ e, st.current_entry = some e → CleanEntry e)
        (Rss1.step pd url) Rss1.State.feed
        (fun st ev hP => rss1_step_clean pd url st ev hP.1 hP.2)
        evs (Rss1.init url) feed
        ⟨cleanFeed_emptyFeed url, fun e he => by cases he⟩ h with ⟨st', hP, rfl⟩
    exact hP.1
  | Atom =>
    rcases runFeed_ok_inv
        (fun st : Atom.State =>
          CleanFeed st.feed ∧ ∀ e, st.current_entry = some e → CleanEntry e)
        (Atom.step pd url) Atom.State.feed
        (fun st ev hP => atom_step_clean pd url st ev hP.1 hP.2)
        evs (Atom.init url) feed
        ⟨cleanFeed_emptyFeed url, fun e he => by cases he⟩ h with ⟨st', hP, rfl⟩
    exact hP.1

/-! ## First-occurrence-wins for Atom links (claim C5) -/

theorem foldl_linkAttrs_snd_no_rel :
    ∀ (attrs : List (String × String)) (p : String × String),
      (∀ kv ∈ attrs, kv.1 ≠ "rel") →
      (attrs.foldl
        (fun p kv =>
          match kv.1 with
          | "href" => (kv.2, p.2)
          | "rel" => (p.1, kv.2)
          | _ => p) p).2 = p.2 := by
  intro attrs
  induction attrs with
  | nil => intro p _; rfl
  | cons kv rest ih =>
    intro p h
    rw [List.foldl_cons]
    rw [ih _ (fun x hx => h x (List.mem_cons_of_mem kv hx))]
    split
    · rfl
    · rename_i hrel
      exact absurd hrel (h kv (List.mem_cons_self kv rest))
    · rfl

theorem Atom.extract_link_fst_link_ne (attrs : List (String × String))
    (f : Feed) (ce : Option FeedEntry) (b : Bool) (hf : f.link ≠ "") :
    ((Atom.extract_link attrs f ce b).1).link = f.link := by
  simp only [Atom.extract_link]
  split
  · split
    · split
      · split <;> rfl
      · rfl
    · rfl
  · rfl

theorem Atom.apply_text_feed_link (pd : String → Option Int) (t : String)
    (st : Atom.State) : ((Atom.apply_text pd t st).feed).link = st.feed.link := by
  unfold Atom.apply_text
  repeat' split
  all_goals rfl

theorem Atom.step_feed_link_stable (pd : String → Option Int) (url : String)
    (st : Atom.State) (ev : XmlEvent) (hf : st.feed.link ≠ "") :
    ((Atom.step pd url st ev).feed).link = st.feed.link := by
  cases ev with
  | startE n attrs =>
    simp only [Atom.step]
    split
    · rfl
    · split
      · rfl
      · split
        · exact Atom.extract_link_fst_link_ne attrs st.feed st.current_entry
            st.in_entry hf
        · split
          · rfl
          · rfl
  | emptyE n attrs =>
    simp only [Atom.step]
    split
    · exact Atom.extract_link_fst_link_ne attrs st.feed st.current_entry
        st.in_entry hf
    · split
      · rfl
      · rfl
  | endE n =>
    simp only [Atom.step]
    split
    · split
      · rfl
      · rfl
    · split
      · rfl
      · rfl
  | textE s =>
    simp only [Atom.step]
    split
    · rfl
    · exact Atom.apply_text_feed_link pd s st
  | cdataE s =>
    simp only [Atom.step]
    split
    · rfl
    · exact Atom.apply_text_feed_link pd s st
  | declE => rfl
  | commentE => rfl
  | piE => rfl
  | otherE => rfl
  | errE => rfl

/-! ## Coordinator lemmas (claims C1, C3, C8) -/

/-- Lift a storage insert that never fails into the fallible
collaborator interface. -/
def totalIns {σ : Type} (ins : σ → Db.NewArticle → Db.InsertResult × σ) :
    σ → Db.NewArticle → Except String Db.InsertResult × σ :=
  fun st a => (.ok (ins st a).1, (ins st a).2)

/-- Lift a last-fetched update that never fails into the fallible
collaborator interface. -/
def totalUpd {σ : Type} (upd : σ → Int → σ) :
    σ → Int → Except String Unit × σ :=
  fun st i => (.ok (), upd st i)

/-- Reference fold: run the inserts in order, count the `Inserted`
outcomes, and return the final storage state. -/
def insertFold {σ : Type} (ins : σ → Db.NewArticle → Db.InsertResult × σ) :
    σ → List Db.NewArticle → Nat × σ
  | st, [] => (0, st)
  | st, a :: rest =>
    let r := ins st a
    let t := insertFold ins r.2 rest
    ((match r.1 with
      | .Inserted _ => 1
      | .Ignored => 0) + t.1, t.2)

theorem insertLoop_total {σ : Type}
    (ins : σ → Db.NewArticle → Db.InsertResult × σ) :
    ∀ (as : List Db.NewArticle) (st : σ) (count : Nat),
      FeedService.insertLoop (totalIns ins) st count as =
        (.ok (count + (insertFold ins st as).1), (insertFold ins st as).2) := by
  intro as
  induction as with
  | nil => intro st count; simp [FeedService.insertLoop, insertFold]
  | cons a rest ih =>
    intro st count
    simp only [FeedService.insertLoop, totalIns, insertFold]
    rw [ih]
    cases (ins st a).1 <;> (simp; try omega)

/-- `refresh_feed` with total storage collaborators: a known feed URL
and a successful fetch-and-parse yield a success whose `new_articles`
is exactly the number of `Inserted` outcomes, and the final state is
the last-fetched update applied after all the inserts. -/
theorem refresh_feed_total {σ : Type}
    (getUrl : σ → Int → Except String (Option String))
    (fetchParse : String → Except String Feed)
    (ins : σ → Db.NewArticle → Db.InsertResult × σ) (upd : σ → Int → σ)
    (st : σ) (fid : Int) (url : String) (feed : Feed)
    (hg : getUrl st fid = .ok (some url)) (hf : fetchParse url = .ok feed) :
    FeedService.refresh_feed getUrl fetchParse (totalIns ins) (totalUpd upd)
        st fid =
      (.ok { feed_id := fid,
             new_articles :=
               (insertFold ins st
                 (feed.entries.map (FeedService.toNewArticle fid))).1 },
       upd (insertFold ins st
         (feed.entries.map (FeedService.toNewArticle fid))).2 fid) := by
  unfold FeedService.refresh_feed
  rw [hg]
  dsimp only
  rw [hf]
  dsimp only
  rw [insertLoop_total, Nat.zero_add]
  rfl

/-! ## Sqlite-model key lemmas (claim C8) -/

theorem Db.insert_article_ignored (st : Db.SqliteState) (a : Db.NewArticle)
    (h : (a.feed_id, a.guid) ∈ st.articleKeys) :
    Db.insert_article st a = (.Ignored, st) := by
  unfold Db.insert_article
  rw [if_pos h]

theorem Db.insert_article_mono (st : Db.SqliteState) (a : Db.NewArticle)
    (k : Int × String) (h : k ∈ st.articleKeys) :
    k ∈ ((Db.insert_article st a).2).articleKeys := by
  unfold Db.insert_article
  split
  · exact h
  · exact List.mem_cons_of_mem _ h

theorem Db.insert_article_self (st : Db.SqliteState) (a : Db.NewArticle) :
    (a.feed_id, a.guid) ∈ ((Db.insert_article st a).2).articleKeys := by
  unfold Db.insert_article
  split
  · next hmem => exact hmem
  · exact List.mem_cons_self _ _

theorem insertFold_keys_mono :
    ∀ (as : List Db.NewArticle) (st : Db.SqliteState) (k : Int × String),
      k ∈ st.articleKeys →
      k ∈ ((insertFold Db.insert_article st as).2).articleKeys := by
  intro as
  induction as with
  | nil => intro st k h; exact h
  | cons a rest ih =>
    intro st k h
    simp only [insertFold]
    exact ih _ k (Db.insert_article_mono st a k h)

theorem insertFold_keys_all :
    ∀ (as : List Db.NewArticle) (st : Db.SqliteState),
      ∀ a ∈ as, (a.feed_id, a.guid) ∈
        ((insertFold Db.insert_article st as).2).articleKeys := by
  intro as
  induction as with
  | nil => intro st a ha; cases ha
  | cons b rest ih =>
    intro st a ha
    rcases List.mem_cons.mp ha with rfl | hm
    · simp only [insertFold]
      exact insertFold_keys_mono rest _ _ (Db.insert_article_self st a)
    · simp only [insertFold]
      exact ih _ a hm

theorem insertFold_all_present :
    ∀ (as : List Db.NewArticle) (st : Db.SqliteState),
      (∀ a ∈ as, (a.feed_id, a.guid) ∈ st.articleKeys) →
      insertFold Db.insert_article st as = (0, st) := by
  intro as
  induction as with
  | nil => intro st _h; rfl
  | cons a rest ih =>
    intro st h
    have h1 : Db.insert_article st a = (.Ignored, st) :=
      Db.insert_article_ignored st a (h a (List.mem_cons_self a rest))
    have h2 := ih st (fun x hx => h x (List.mem_cons_of_mem a hx))
    simp only [insertFold, h1]
    rw [h2]
    rfl

/-! ## Concrete fixtures used by the claim witnesses -/

/-- A date parser that never matches (the dialect parsers are
quantified over the date parser, so any instance will do for concrete
runs). -/
def pdNone : String → Option Int := fun _ => none

/-- A minimal Atom event stream: feed title, then one entry with only a
title, so the entry's id must be synthesised. -/
def c2evs : List XmlEvent :=
  [.startE "feed" [], .startE "title" [], .textE "Blog", .endE "title",
   .startE "entry" [], .startE "title" [], .textE "Post", .endE "title",
   .endE "entry", .endE "feed"]

/-- The feed `Atom.parse pdNone "u" c2evs` produces. -/
def c2feed : Feed :=
  { title := "Blog", link := "", feed_url := "u", description := none,
    language := none, last_updated := none,
    entries := [{ emptyEntry with title := "Post", id := "u-0" }] }

/-- The article-insert request built from `c2feed`'s only entry for
feed 7. -/
def c8article : Db.NewArticle :=
  FeedService.toNewArticle 7 { emptyEntry with title := "Post", id := "u-0" }

/-! ## Claim theorems -/

/-- C7: the format detector returns RSS2/RSS1/Atom exactly when the
first start or self-closing element of the stream has un-prefixed local
name `rss`/`RDF`/`feed`; any other first-element name, no element
before end-of-input, and a malformed-XML error all yield the plain
absence result `none`. -/
theorem C7_detector_first_element :
    ∀ evs : List XmlEvent,
      detect_format evs = (firstElementName evs).bind formatOfName := by
  intro evs
  induction evs with
  | nil => rfl
  | cons ev rest ih =>
    cases ev with
    | startE n attrs => rfl
    | emptyE n attrs => rfl
    | endE n => exact ih
    | textE s => exact ih
    | cdataE s => exact ih
    | declE => exact ih
    | commentE => exact ih
    | piE => exact ih
    | otherE => exact ih
    | errE => rfl

/-- C2: every entry of a feed produced by any of the three dialect
parsers has a non-empty id, and end-of-item finalisation keeps a
non-empty explicit guid/id/about, else takes the entry's non-empty
link, else synthesises `"{feed_url}-{index}"` with the index counting
the already-finalised entries. -/
theorem C2_entry_id_invariant :
    (∀ (fmt : FeedFormat) (pd : String → Option Int) (url : String)
        (evs : List XmlEvent) (feed : Feed),
        parseDialect fmt pd url evs = .ok feed → ∀ e ∈ feed.entries, e.id ≠ "")
    ∧ (∀ (url : String) (idx : Nat) (e : FeedEntry),
        (finalizeEntry url idx e).id =
          if e.id ≠ "" then e.id
          else if e.link ≠ "" then e.link
          else url ++ "-" ++ toString idx) := by
  constructor
  · intro fmt pd url evs feed h e he
    exact parse_goodIds fmt pd url evs feed h e he
  · intro url idx e
    unfold finalizeEntry
    by_cases hid : e.id = "" <;> simp [hid]

/-- Witness for C2: the synthesised-id entry of a concrete Atom parse
has a non-empty id. -/
theorem C2_entry_id_invariant_witness :
    ({ emptyEntry with title := "Post", id := "u-0" } : FeedEntry).id ≠ "" :=
  C2_entry_id_invariant.1 .Atom pdNone "u" c2evs c2feed rfl
    { emptyEntry with title := "Post", id := "u-0" } (by simp [c2feed])

/-- C4: each dialect parser fails in exactly two situations — a
malformed-XML event yields the XML error (no partial feed), and a feed
title still empty at end-of-input yields the missing-required-field
error; on every other input the parse succeeds with the folded feed. -/
theorem C4_parser_error_conditions :
    ∀ (pd : String → Option Int) (url : String) (evs : List XmlEvent),
      ((XmlEvent.errE ∈ evs → Atom.parse pd url evs = .error .Xml)
        ∧ (XmlEvent.errE ∉ evs →
            Atom.parse pd url evs =
              (if ((evs.foldl (Atom.step pd url) (Atom.init url)).feed).title = "" then
                 .error (.MissingField "title")
               else .ok ((evs.foldl (Atom.step pd url) (Atom.init url)).feed))))
      ∧ ((XmlEvent.errE ∈ evs → Rss2.parse pd url evs = .error .Xml)
        ∧ (XmlEvent.errE ∉ evs →
            Rss2.parse pd url evs =
              (if ((evs.foldl (Rss2.step pd url) (Rss2.init url)).feed).title = "" then
                 .error (.MissingField "title")
               else .ok ((evs.foldl (Rss2.step pd url) (Rss2.init url)).feed))))
      ∧ ((XmlEvent.errE ∈ evs → Rss1.parse pd url evs = .error .Xml)
        ∧ (XmlEvent.errE ∉ evs →
            Rss1.parse pd url evs =
              (if ((evs.foldl (Rss1.step pd url) (Rss1.init url)).feed).title = "" then
                 .error (.MissingField "title")
               else .ok ((evs.foldl (Rss1.step pd url) (Rss1.init url)).feed)))) := by
  intro pd url evs
  refine ⟨⟨?_, ?_⟩, ⟨?_, ?_⟩, ?_, ?_⟩
  · exact fun h => runFeed_err (Atom.step pd url) Atom.State.feed evs (Atom.init url) h
  · exact fun h => runFeed_no_err (Atom.step pd url) Atom.State.feed evs (Atom.init url) h
  · exact fun h => runFeed_err (Rss2.step pd url) Rss2.State.feed evs (Rss2.init url) h
  · exact fun h => runFeed_no_err (Rss2.step pd url) Rss2.State.feed evs (Rss2.init url) h
  · exact fun h => runFeed_err (Rss1.step pd url) Rss1.State.feed evs (Rss1.init url) h
  · exact fun h => runFeed_no_err (Rss1.step pd url) Rss1.State.feed evs (Rss1.init url) h

/-- C5: in the Atom parser a link's `rel` defaults to `"alternate"`
when absent; a qualifying link (non-empty `href`, `rel` alternate or
empty) sets `feed.link`/`entry.link` only while that field is still
empty, and an already-set link survives every further event
unchanged. -/
theorem C5_atom_link_first_wins :
    (∀ attrs : List (String × String),
        (∀ kv ∈ attrs, kv.1 ≠ "rel") → (Atom.linkAttrs attrs).2 = "alternate")
    ∧ (∀ (attrs : List (String × String)) (f : Feed) (ce : Option FeedEntry),
        f.link ≠ "" → Atom.extract_link attrs f ce false = (f, ce))
    ∧ (∀ (attrs : List (String × String)) (f : Feed) (e : FeedEntry),
        e.link ≠ "" → Atom.extract_link attrs f (some e) true = (f, some e))
    ∧ (∀ (attrs : List (String × String)) (f : Feed) (ce : Option FeedEntry),
        f.link = "" →
          ((Atom.extract_link attrs f ce false).1).link =
            (if (Atom.linkAttrs attrs).1 ≠ "" ∧
                ((Atom.linkAttrs attrs).2 = "alternate" ∨
                  (Atom.linkAttrs attrs).2 = "")
             then (Atom.linkAttrs attrs).1 else ""))
    ∧ (∀ (attrs : List (String × String)) (f : Feed) (e : FeedEntry),
        e.link = "" →
          (Atom.extract_link attrs f (some e) true).2 =
            some (if (Atom.linkAttrs attrs).1 ≠ "" ∧
                     ((Atom.linkAttrs attrs).2 = "alternate" ∨
                       (Atom.linkAttrs attrs).2 = "")
                  then { e with link := (Atom.linkAttrs attrs).1 } else e))
    ∧ (∀ (pd : String → Option Int) (url : String) (st : Atom.State)
        (ev : XmlEvent), st.feed.link ≠ "" →
          ((Atom.step pd url st ev).feed).link = st.feed.link) := by
  refine ⟨?_, ?_, ?_, ?_, ?_, ?_⟩
  · intro attrs h
    exact foldl_linkAttrs_snd_no_rel attrs ("", "alternate") h
  · intro attrs f ce hf
    simp only [Atom.extract_link]
    split <;> rfl
  · intro attrs f e he
    simp only [Atom.extract_link]
    split <;> rfl
  · intro attrs f ce hf
    simp only [Atom.extract_link]
    split
    · rfl
    · exact hf
  · intro attrs f e he
    simp only [Atom.extract_link]
    split <;> rfl
  · intro pd url st ev hf
    exact Atom.step_feed_link_stable pd url st ev hf

/-- Witness for C5: a second qualifying link leaves an already-set
`feed.link` untouched. -/
theorem C5_atom_link_first_wins_witness :
    Atom.extract_link [("href", "https://site/self.xml"), ("rel", "alternate")]
        { emptyFeed "u" with link := "https://site/" } none false =
      ({ emptyFeed "u" with link := "https://site/" }, none) :=
  C5_atom_link_first_wins.2.1 _ _ _ (by decide)

/-- C10: in every feed any of the three dialect parsers produces, no
optional string field (content, summary, author, description, language,
image_url) is present-but-empty and no category is the empty string. -/
theorem C10_no_empty_optionals :
    ∀ (fmt : FeedFormat) (pd : String → Option Int) (url : String)
      (evs : List XmlEvent) (feed : Feed),
      parseDialect fmt pd url evs = .ok feed →
        feed.description ≠ some "" ∧ feed.language ≠ some "" ∧
          ∀ e ∈ feed.entries,
            e.content ≠ some "" ∧ e.summary ≠ some "" ∧ e.author ≠ some "" ∧
              e.image_url ≠ some "" ∧ "" ∉ e.categories := by
  intro fmt pd url evs feed h
  exact parse_clean fmt pd url evs feed h

/-- C6: `parse_date` trims, maps the empty string to `none`, and
otherwise equals the spec's ordered five-attempt chain (RFC 3339,
RFC 2822, RFC 2822 after named-zone substitution only when the
substitution changed the string, the fixed naive-pattern list, bare
date-only), the first success winning; it is a total function into an
optional timestamp, never an error. -/
theorem C6_parse_date_attempt_chain :
    ∀ (chrono : ChronoApi) (input : String),
      parse_date chrono input = parse_date_spec chrono input := by
  intro chrono input
  unfold parse_date parse_date_spec
  dsimp only
  by_cases h0 : strTrim input = ""
  · rw [if_pos h0, if_pos h0]
  · rw [if_neg h0, if_neg h0]
    cases h1 : chrono.parse_from_rfc3339 (strTrim input) with
    | some v => rfl
    | none =>
      cases h2 : chrono.parse_from_rfc2822 (strTrim input) with
      | some v => rfl
      | none =>
        cases h3 :
            (if normalizeTz (strTrim input) ≠ strTrim input then
               chrono.parse_from_rfc2822 (normalizeTz (strTrim input))
             else none) with
        | some v => rfl
        | none =>
          cases h4 : naive_formats.findSome?
              (fun fmt => chrono.parse_from_str (strTrim input) fmt) with
          | some v => rfl
          | none =>
            cases h5 : chrono.parse_date_from_str (strTrim input) "%Y-%m-%d" with
            | some v => rfl
            | none => rfl

/-- Counterexample to C1 as stated: fetch and parse succeed, the
single entry's insert fails with a storage error, and the refresh
returns that error with the state still `false` — the last-fetched
update (which would have set the state to `true`) never ran. -/
theorem C1_counterexample :
    FeedService.refresh_feed (σ := Bool) (fun _ _ => .ok (some "u"))
        (fun _ => .ok c2feed)
        (fun st _ => (.error "db failure", st))
        (fun _ _ => (.ok (), true))
        false 7 =
      (.error "db failure", false) := rfl

/-- C1 (amended): for a refresh in which fetch, detect and parse
succeed and every per-entry insert returns without a storage error, the
coordinator updates the feed's last-fetched timestamp unconditionally —
also when zero entries are newly inserted — and `new_articles` counts
exactly the inserts that returned an `Inserted` outcome.  (A failing
insert instead aborts the refresh with its error before the timestamp
update.) -/
theorem C1_refresh_updates_last_fetched :
    ∀ (σ : Type) (getUrl : σ → Int → Except String (Option String))
      (fetchParse : String → Except String Feed)
      (ins : σ → Db.NewArticle → Db.InsertResult × σ) (upd : σ → Int → σ)
      (st : σ) (fid : Int) (url : String) (feed : Feed),
      getUrl st fid = .ok (some url) → fetchParse url = .ok feed →
      FeedService.refresh_feed getUrl fetchParse (totalIns ins) (totalUpd upd)
          st fid =
        (.ok { feed_id := fid,
               new_articles :=
                 (insertFold ins st
                   (feed.entries.map (FeedService.toNewArticle fid))).1 },
         upd (insertFold ins st
           (feed.entries.map (FeedService.toNewArticle fid))).2 fid) :=
  fun _ getUrl fetchParse ins upd st fid url feed hg hf =>
    refresh_feed_total getUrl fetchParse ins upd st fid url feed hg hf

/-- Witness for C1 (amended): a concrete refresh against the sqlite
model inserts one article, reports it, and stamps the feed. -/
theorem C1_refresh_updates_last_fetched_witness :
    FeedService.refresh_feed (σ := Db.SqliteState) (fun _ _ => .ok (some "u"))
        (fun _ => .ok c2feed) (totalIns Db.insert_article)
        (totalUpd Db.update_feed_last_fetched)
        { articleKeys := [], nextId := 1, lastFetched := [] } 7 =
      (.ok { feed_id := 7, new_articles := 1 },
       { articleKeys := [(7, "u-0")], nextId := 2, lastFetched := [7] }) :=
  (C1_refresh_updates_last_fetched Db.SqliteState _ _ _ _ _ 7 "u" c2feed
    rfl rfl).trans rfl

/-- Counterexample to C3 as stated: the core service's
`refresh_all_feeds` returns the very same result list whether a feed's
refresh failed (here with error "timeout") or succeeded with zero new
articles — its `RefreshResult` has no error field, so the error is not
recorded in the returned results. -/
theorem C3_counterexample :
    FeedService.refresh_all_feeds (σ := Unit)
        (fun st _ => (.error "timeout", st)) () [7] =
      FeedService.refresh_all_feeds (σ := Unit)
        (fun st fid => (.ok { feed_id := fid, new_articles := 0 }, st)) ()
        [7] := rfl

/-- C3 (amended): both `refresh_all_feeds` implementations return
exactly one result per known feed, a failing feed contributes a result
with zero new articles, and the failure does not abort or skip the
remaining feeds; the error itself is recorded in the result by the
desktop command implementation, while the core service implementation
only logs it.  The conjuncts: core result-list length; core behaviour
on a failing head feed (zero-new result, tail still refreshed); the
same on a succeeding head; a successful `refresh_feed` reports the
requested feed id; command-layer length; command-layer behaviour on a
failing feed (zero new articles plus the recorded error, tail still
refreshed). -/
theorem C3_refresh_all_isolation :
    (∀ (σ : Type) (doRefresh : σ → Int → Except String FeedService.RefreshResult × σ)
        (st : σ) (feeds : List Int),
        (FeedService.refresh_all_feeds doRefresh st feeds).1.length = feeds.length)
    ∧ (∀ (σ : Type) (doRefresh : σ → Int → Except String FeedService.RefreshResult × σ)
        (st : σ) (fid : Int) (rest : List Int) (e : String),
        (doRefresh st fid).1 = .error e →
        (FeedService.refresh_all_feeds doRefresh st (fid :: rest)).1 =
          { feed_id := fid, new_articles := 0 } ::
            (FeedService.refresh_all_feeds doRefresh (doRefresh st fid).2 rest).1)
    ∧ (∀ (σ : Type) (doRefresh : σ → Int → Except String FeedService.RefreshResult × σ)
        (st : σ) (fid : Int) (rest : List Int) (r : FeedService.RefreshResult),
        (doRefresh st fid).1 = .ok r →
        (FeedService.refresh_all_feeds doRefresh st (fid :: rest)).1 =
          r :: (FeedService.refresh_all_feeds doRefresh (doRefresh st fid).2 rest).1)
    ∧ (∀ (σ : Type) (getUrl : σ → Int → Except String (Option String))
        (fetchParse : String → Except String Feed)
        (insA : σ → Db.NewArticle → Except String Db.InsertResult × σ)
        (updA : σ → Int → Except String Unit × σ)
        (st : σ) (fid : Int) (r : FeedService.RefreshResult) (st' : σ),
        FeedService.refresh_feed getUrl fetchParse insA updA st fid =
          (.ok r, st') → r.feed_id = fid)
    ∧ (∀ (doRefresh : Int → String → Except String Int)
        (feeds : List (Int × String)),
        (Commands.refresh_all_feeds doRefresh feeds).length = feeds.length)
    ∧ (∀ (doRefresh : Int → String → Except String Int) (fid : Int)
        (u : String) (rest : List (Int × String)) (e : String),
        doRefresh fid u = .error e →
        Commands.refresh_all_feeds doRefresh ((fid, u) :: rest) =
          { feed_id := fid, new_articles := 0, error := some e } ::
            Commands.refresh_all_feeds doRefresh rest) := by
  refine ⟨?_, ?_, ?_, ?_, ?_, ?_⟩
  · intro σ doRefresh st feeds
    induction feeds generalizing st with
    | nil => rfl
    | cons fid rest ih =>
      simp only [FeedService.refresh_all_feeds, List.length_cons]
      rw [ih]
  · intro σ doRefresh st fid rest e h
    simp only [FeedService.refresh_all_feeds]
    rw [h]
  · intro σ doRefresh st fid rest r h
    simp only [FeedService.refresh_all_feeds]
    rw [h]
  · intro σ getUrl fetchParse insA updA st fid r st' h
    unfold FeedService.refresh_feed at h
    split at h
    · exact Except.noConfusion (congrArg Prod.fst h)
    · exact Except.noConfusion (congrArg Prod.fst h)
    · split at h
      · exact Except.noConfusion (congrArg Prod.fst h)
      · split at h
        · exact Except.noConfusion (congrArg Prod.fst h)
        · split at h
          · exact Except.noConfusion (congrArg Prod.fst h)
          · rw [← Except.ok.inj (congrArg Prod.fst h)]
  · intro doRefresh feeds
    induction feeds with
    | nil => rfl
    | cons f rest ih =>
      simp only [Commands.refresh_all_feeds, List.length_cons]
      rw [ih]
  · intro doRefresh fid u rest e h
    simp only [Commands.refresh_all_feeds]
    rw [h]

/-- Witness for C3 (amended): over feeds `[7, 8]` where feed 7's
refresh times out and feed 8 finds five new articles, the core batch
still returns one result per feed, recording zero new articles for
feed 7. -/
theorem C3_refresh_all_isolation_witness :
    (FeedService.refresh_all_feeds (σ := Unit)
        (fun st fid =>
          if fid = 7 then (.error "timeout", st)
          else (.ok { feed_id := fid, new_articles := 5 }, st)) () [7, 8]).1 =
      [{ feed_id := 7, new_articles := 0 }, { feed_id := 8, new_articles := 5 }] :=
  (C3_refresh_all_isolation.2.1 Unit
      (fun st fid =>
        if fid = 7 then (.error "timeout", st)
        else (.ok { feed_id := fid, new_articles := 5 }, st)) () 7 [8]
      "timeout" rfl).trans rfl

/-- C8: article insertion is idempotent per `(feed_id, guid)` — a fresh
key inserts and the same request resubmitted is ignored — and a second
`refresh_feed` against an unchanged feed source reports
`new_articles = 0`. -/
theorem C8_insert_refresh_idempotent :
    (∀ (st : Db.SqliteState) (a : Db.NewArticle),
        (a.feed_id, a.guid) ∉ st.articleKeys →
        (Db.insert_article st a).1 = .Inserted st.nextId ∧
        (Db.insert_article (Db.insert_article st a).2 a).1 = .Ignored)
    ∧ (∀ (getUrl : Int → Except String (Option String))
        (fetchParse : String → Except String Feed)
        (st : Db.SqliteState) (fid : Int) (url : String) (feed : Feed)
        (r1 : FeedService.RefreshResult) (st1 : Db.SqliteState),
        getUrl fid = .ok (some url) → fetchParse url = .ok feed →
        FeedService.refresh_feed (fun _ i => getUrl i) fetchParse
            (totalIns Db.insert_article) (totalUpd Db.update_feed_last_fetched)
            st fid = (.ok r1, st1) →
        FeedService.refresh_feed (fun _ i => getUrl i) fetchParse
            (totalIns Db.insert_article) (totalUpd Db.update_feed_last_fetched)
            st1 fid =
          (.ok { feed_id := fid, new_articles := 0 },
           Db.update_feed_last_fetched st1 fid)) := by
  constructor
  · intro st a hmem
    constructor
    · unfold Db.insert_article
      rw [if_neg hmem]
    · rw [Db.insert_article_ignored _ a (Db.insert_article_self st a)]
  · intro getUrl fetchParse st fid url feed r1 st1 hg hf hrun
    have h1 := refresh_feed_total (fun _ i => getUrl i) fetchParse
      Db.insert_article Db.update_feed_last_fetched st fid url feed hg hf
    rw [hrun] at h1
    have hst1 := congrArg Prod.snd h1
    dsimp only at hst1
    have hall : ∀ a ∈ feed.entries.map (FeedService.toNewArticle fid),
        (a.feed_id, a.guid) ∈ st1.articleKeys := by
      intro a ha
      rw [hst1]
      exact insertFold_keys_all
        (feed.entries.map (FeedService.toNewArticle fid)) st a ha
    have h2 := refresh_feed_total (fun _ i => getUrl i) fetchParse
      Db.insert_article Db.update_feed_last_fetched st1 fid url feed hg hf
    rw [insertFold_all_present
      (feed.entries.map (FeedService.toNewArticle fid)) st1 hall] at h2
    exact h2

/-- Witness for C8: inserting `c8article` into the empty store yields
`Inserted` then `Ignored`, and refreshing feed 7 a second time against
the unchanged source reports zero new articles. -/
theorem C8_insert_refresh_idempotent_witness :
    (Db.insert_article { articleKeys := [], nextId := 1, lastFetched := [] }
        c8article).1 = .Inserted 1 ∧
    (Db.insert_article
        (Db.insert_article { articleKeys := [], nextId := 1, lastFetched := [] }
          c8article).2 c8article).1 = .Ignored ∧
    FeedService.refresh_feed (σ := Db.SqliteState)
        (fun _ i => if i = 7 then .ok (some "u") else .error "Feed not found")
        (fun _ => .ok c2feed) (totalIns Db.insert_article)
        (totalUpd Db.update_feed_last_fetched)
        { articleKeys := [(7, "u-0")], nextId := 2, lastFetched := [7] } 7 =
      (.ok { feed_id := 7, new_articles := 0 },
       { articleKeys := [(7, "u-0")], nextId := 2, lastFetched := [7, 7] }) :=
  ⟨(C8_insert_refresh_idempotent.1 _ c8article (by decide)).1,
   (C8_insert_refresh_idempotent.1 _ c8article (by decide)).2,
   (C8_insert_refresh_idempotent.2
      (fun i => if i = 7 then .ok (some "u") else .error "Feed not found")
      (fun _ => .ok c2feed)
      { articleKeys := [], nextId := 1, lastFetched := [] } 7 "u" c2feed
      { feed_id := 7, new_articles := 1 }
      { articleKeys := [(7, "u-0")], nextId := 2, lastFetched := [7] }
      rfl rfl rfl).trans rfl⟩

/-- C9: a discovery input whose response has a feed-indicating
content-type or a body whose leading non-whitespace starts with
`<?xml`, `<rss`, `<feed` or `<rdf:RDF` yields exactly the input URL as
sole candidate, independently of the HTML link scan and of the
fixed-path probe collaborators — neither is consulted. -/
theorem C9_discovery_direct_feed :
    ∀ (resolve : String → String) (baseOk : Bool)
      (alternateLinks : List (String × String))
      (probeHead : String → Option String)
      (url content_type_raw body : String),
      (Discovery.is_feed_content_type (strToLower content_type_raw) ||
        Discovery.looks_like_feed body) = true →
      Discovery.discover resolve baseOk alternateLinks probeHead url
          content_type_raw body = .ok [⟨url⟩] := by
  intro resolve baseOk alternateLinks probeHead url ct body h
  unfold Discovery.discover
  dsimp only
  rw [if_pos h]

/-- Witness for C9: an RSS content-type response is returned as the
sole candidate with no probing. -/
theorem C9_discovery_direct_feed_witness :
    Discovery.discover (fun s => s) false [] (fun _ => none) "https://x"
        "Application/RSS+XML" "<html>" = .ok [⟨"https://x"⟩] :=
  C9_discovery_direct_feed (fun s => s) false [] (fun _ => none) "https://x"
    "Application/RSS+XML" "<html>" (by decide)

/-- Witness for C10: the fields of a concrete Atom parse are never
present-but-empty. -/
theorem C10_no_empty_optionals_witness :
    c2feed.description ≠ some "" ∧ c2feed.language ≠ some "" ∧
      ∀ e ∈ c2feed.entries,
        e.content ≠ some "" ∧ e.summary ≠ some "" ∧ e.author ≠ some "" ∧
          e.image_url ≠ some "" ∧ "" ∉ e.categories :=
  C10_no_empty_optionals .Atom pdNone "u" c2evs c2feed rfl

/-- Witness for C4: a lone malformed-XML event aborts an Atom parse
with the XML error, and an empty RSS2 stream fails for the missing
title. -/
theorem C4_parser_error_conditions_witness :
    Atom.parse pdNone "u" [XmlEvent.errE] = .error .Xml ∧
    Rss2.parse pdNone "u" [] = .error (.MissingField "title") := by
  constructor
  · exact (C4_parser_error_conditions pdNone "u" [XmlEvent.errE]).1.1 (by simp)
  · have h := (C4_parser_error_conditions pdNone "u" []).2.1.2 (by simp)
    simpa using h

end Boke
